import Mathlib

/-!
# Voxel server: packet dispatch and octree store

A shallow embedding of `VoxelServerPacketProcessor::processPacket`
(VoxelServerPacketProcessor.cpp) and of the receive loop of `VoxelServer::run`
(VoxelServer.cpp).  Bytes are natural numbers, a packet buffer is a list of
bytes, a pointer into the buffer is an offset, and every call the C++ code makes
on a collaborator (tree, lock, peer registry, stdout) is recorded, in order, as
an `Action`.  The octree store and the spatial codec, of which the code at hand
holds only declarations and calls, are modelled from the specification; those
definitions say so.
-/

namespace VoxelServer

/-- Packet type bytes of `PacketHeaders.h`, a header outside this development:
the six bytes the code compares against are parameters. -/
structure PacketTypes where
  PACKET_TYPE_SET_VOXEL : Nat
  PACKET_TYPE_SET_VOXEL_DESTRUCTIVE : Nat
  PACKET_TYPE_ERASE_VOXEL : Nat
  PACKET_TYPE_Z_COMMAND : Nat
  PACKET_TYPE_VOXEL_QUERY : Nat
  PACKET_TYPE_VOXEL_JURISDICTION_REQUEST : Nat
  deriving DecidableEq, Repr

/-- The six packet types are six different bytes (they are values of one
enumeration of packet types). -/
def PacketTypes.distinct (T : PacketTypes) : Prop :=
  [T.PACKET_TYPE_SET_VOXEL, T.PACKET_TYPE_SET_VOXEL_DESTRUCTIVE, T.PACKET_TYPE_ERASE_VOXEL,
    T.PACKET_TYPE_Z_COMMAND, T.PACKET_TYPE_VOXEL_QUERY,
    T.PACKET_TYPE_VOXEL_JURISDICTION_REQUEST].Nodup

instance (T : PacketTypes) : Decidable T.distinct := by
  unfold PacketTypes.distinct; infer_instance

/-- A concrete assignment of type bytes (ASCII letters), used to evaluate the
model on sample packets. -/
def sampleTypes : PacketTypes :=
  { PACKET_TYPE_SET_VOXEL := 83
    PACKET_TYPE_SET_VOXEL_DESTRUCTIVE := 79
    PACKET_TYPE_ERASE_VOXEL := 69
    PACKET_TYPE_Z_COMMAND := 90
    PACKET_TYPE_VOXEL_QUERY := 113
    PACKET_TYPE_VOXEL_JURISDICTION_REQUEST := 74 }

/-- Everything `processPacket` takes from its surroundings: constants and pure
helpers declared in headers outside this development, the two debug switches
of the server object, and the peer registry's lookup by address. -/
structure Env where
  types : PacketTypes
  numBytesForPacketHeader : List Nat → Nat
  bytesRequiredForCodeLength : Nat → Nat
  TEST_COMMAND : List Nat
  wantShowAnimationDebug : Bool
  wantsDebugVoxelReceiving : Bool
  nodeWithAddress : Nat → Option Nat

/-- Role tag passed to `broadcastToNodes`. -/
inductive NodeType
  | NODE_TYPE_AGENT
  deriving DecidableEq, Repr

/-- The `printf` lines of `processPacket`, with the values they print. -/
inductive Log
  | gotCommand (destructive : Bool) (receivedBytes itemNumber : Nat)
  | gotCountedCommand (destructive : Bool) (count receivedBytes itemNumber : Nat)
  | insertingVoxel (red green blue : Nat)
  | gotZMessage (packetLength : Nat) (command : List Nat)
  | gotTestCommand
  | rebroadcasting
  | unknownPacket (typeByte : Nat)
  deriving DecidableEq, Repr

/-- Calls `processPacket` makes on its collaborators.  A pointer argument into
the packet buffer is the offset it points at. -/
inductive Action
  | printf (line : Log)
  | lockTree
  | unlockTree
  | readCodeColorBufferToTree (voxelData : Nat) (destructive : Bool)
  | processRemoveVoxelBitstream (packetData : List Nat) (packetLength : Nat)
  | broadcastToNodes (packetData : List Nat) (packetLength : Nat) (nodeTypes : List NodeType)
  | setLastHeardMicrostamp (node : Nat)
  deriving DecidableEq, Repr

/-- Line 53: `const int COLOR_SIZE_IN_BYTES = 3;`. -/
def COLOR_SIZE_IN_BYTES : Nat := 3

/-- Line 54: `voxelDataSize = bytesRequiredForCodeLength(octets) + COLOR_SIZE_IN_BYTES`. -/
def voxelDataSize (bytesRequired : Nat → Nat) (octets : Nat) : Nat :=
  bytesRequired octets + COLOR_SIZE_IN_BYTES

/-- Line 55: `voxelCodeSize = bytesRequiredForCodeLength(octets)`. -/
def voxelCodeSize (bytesRequired : Nat → Nat) (octets : Nat) : Nat :=
  bytesRequired octets

/-- Lines 51-71: the record loop of the SET_VOXEL branch.  `voxelData` and
`atByte` are the two loop variables of the source. -/
def setVoxelLoop (E : Env) (packetData : List Nat) (packetLength : Nat) (destructive : Bool)
    (voxelData atByte : Nat) : List Action :=
  if atByte < packetLength then
    let octets := packetData.getD voxelData 0
    let dataSize := voxelDataSize E.bytesRequiredForCodeLength octets
    let codeSize := voxelCodeSize E.bytesRequiredForCodeLength octets
    (if E.wantShowAnimationDebug then
        [Action.printf (Log.insertingVoxel
          (packetData.getD (voxelData + (codeSize + 0)) 0)
          (packetData.getD (voxelData + (codeSize + 1)) 0)
          (packetData.getD (voxelData + (codeSize + 2)) 0))]
      else [])
      ++ Action.readCodeColorBufferToTree voxelData destructive
        :: setVoxelLoop E packetData packetLength destructive
            (voxelData + dataSize) (atByte + dataSize)
  else []
termination_by packetLength - atByte
decreasing_by
  simp only [voxelDataSize, COLOR_SIZE_IN_BYTES]
  omega

/-- The C function `strlen` on the bytes from a pointer on: the number of bytes
before the first NUL. -/
def strlen (bytes : List Nat) : Nat :=
  (bytes.takeWhile (fun b => b != 0)).length

/-- The C test `strcmp(a, b) == 0` for `a` a pointer into a buffer and `b` a
string constant given without its terminator. -/
def strcmpEqual (bytes : List Nat) (constant : List Nat) : Bool :=
  bytes.takeWhile (fun b => b != 0) == constant

/-- Lines 102-107: the command loop of the Z_COMMAND branch.  Each iteration is
recorded as the value of `totalLength` on entry and the outcome of the
comparison with `TEST_COMMAND`. -/
def zCommandLoop (E : Env) (command : List Nat) (commandLength packetLength : Nat)
    (totalLength : Nat) : List (Nat × Bool) :=
  if totalLength ≤ packetLength then
    (totalLength, strcmpEqual command E.TEST_COMMAND)
      :: zCommandLoop E command commandLength packetLength (totalLength + (commandLength + 1))
  else []
termination_by packetLength + 1 - totalLength
decreasing_by omega

/-- The output of the command loop: one line per iteration whose comparison
succeeded (lines 103-105). -/
def zCommandLoopActions (iterations : List (Nat × Bool)) : List Action :=
  iterations.filterMap (fun it => if it.2 then some (Action.printf Log.gotTestCommand) else none)

/-- Lines 74-77, 87-90 and 116-119: look the sender up in the registry and mark
it heard when it is known. -/
def markLastHeard (E : Env) (senderAddress : Nat) : List Action :=
  match E.nodeWithAddress senderAddress with
  | some node => [Action.setLastHeardMicrostamp node]
  | none => []

/-- Line 37: the item number, read as a 16-bit integer in host (little-endian)
byte order; it only feeds the debug output. -/
def itemNumberAt (packetData : List Nat) (offset : Nat) : Nat :=
  packetData.getD offset 0 + 256 * packetData.getD (offset + 1) 0

/-- `VoxelServerPacketProcessor::processPacket` (lines 25-123).  The state is the
counter `_receivedPacketCount`; the result is the new counter and the calls
made, in order. -/
def processPacket (E : Env) (receivedPacketCount : Nat) (senderAddress : Nat)
    (packetData : List Nat) (packetLength : Nat) : Nat × List Action :=
  let numBytesPacketHeader := E.numBytesForPacketHeader packetData
  let typeByte := packetData.getD 0 0
  if typeByte = E.types.PACKET_TYPE_SET_VOXEL
      ∨ typeByte = E.types.PACKET_TYPE_SET_VOXEL_DESTRUCTIVE then
    let destructive := decide (typeByte = E.types.PACKET_TYPE_SET_VOXEL_DESTRUCTIVE)
    let count := receivedPacketCount + 1
    let itemNumber := itemNumberAt packetData numBytesPacketHeader
    let atByte := numBytesPacketHeader + 2
    (count,
      (if E.wantShowAnimationDebug then
          [Action.printf (Log.gotCommand destructive packetLength itemNumber)] else [])
        ++ (if E.wantsDebugVoxelReceiving then
          [Action.printf (Log.gotCountedCommand destructive count packetLength itemNumber)]
          else [])
        ++ setVoxelLoop E packetData packetLength destructive atByte atByte
        ++ markLastHeard E senderAddress)
  else if typeByte = E.types.PACKET_TYPE_ERASE_VOXEL then
    (receivedPacketCount,
      [Action.lockTree, Action.processRemoveVoxelBitstream packetData packetLength,
        Action.unlockTree] ++ markLastHeard E senderAddress)
  else if typeByte = E.types.PACKET_TYPE_Z_COMMAND then
    let command := packetData.drop numBytesPacketHeader
    let commandLength := strlen command
    let totalLength := numBytesPacketHeader + commandLength + 1
    let rebroadcast := true
    (receivedPacketCount,
      Action.printf (Log.gotZMessage packetLength (command.take commandLength))
        :: zCommandLoopActions (zCommandLoop E command commandLength packetLength totalLength)
        ++ (if rebroadcast then
          [Action.printf Log.rebroadcasting,
            Action.broadcastToNodes packetData packetLength [NodeType.NODE_TYPE_AGENT]]
          else [])
        ++ markLastHeard E senderAddress)
  else
    (receivedPacketCount, [Action.printf (Log.unknownPacket typeByte)])

/-! ## The receive loop of `VoxelServer::run` -/

/-- Calls the receive loop makes with a received packet. -/
inductive RunAction
  | updateNodeWithData (node senderAddress : Nat) (packetData : List Nat) (packetLength : Nat)
  | initializeVoxelSendThread (node : Nat)
  | jurisdictionSenderQueue (senderAddress : Nat) (packetData : List Nat) (packetLength : Nat)
  | packetProcessorQueue (senderAddress : Nat) (packetData : List Nat) (packetLength : Nat)
  | processNodeData (senderAddress : Nat) (packetData : List Nat) (packetLength : Nat)
  deriving DecidableEq, Repr

/-- What the receive loop takes from its surroundings: the packet type bytes, the
header helpers, the registry's lookup by UUID, and for each peer whether it has
linked data and, if so, whether its send thread is already initialised. -/
structure RunEnv where
  types : PacketTypes
  numBytesForPacketHeader : List Nat → Nat
  packetVersionMatch : List Nat → Bool
  nodeWithUUID : List Nat → Option Nat
  linkedData : Nat → Option Bool

/-- Line 456: `NUM_BYTES_RFC4122_UUID`. -/
def NUM_BYTES_RFC4122_UUID : Nat := 16

/-- Lines 447-482: the body of the receive loop for one call of `receive`.
`jurisdictionSender` and `voxelServerPacketProcessor` say whether the two member
pointers are non-null; `received` is the result of `receive`. -/
def receiveDispatch (R : RunEnv) (jurisdictionSender voxelServerPacketProcessor : Bool)
    (received : Bool) (senderAddress : Nat) (packetData : List Nat) (packetLength : Nat) :
    List RunAction :=
  if received && R.packetVersionMatch packetData then
    let numBytesPacketHeader := R.numBytesForPacketHeader packetData
    let typeByte := packetData.getD 0 0
    if typeByte = R.types.PACKET_TYPE_VOXEL_QUERY then
      match R.nodeWithUUID ((packetData.drop numBytesPacketHeader).take NUM_BYTES_RFC4122_UUID) with
      | some node =>
        RunAction.updateNodeWithData node senderAddress packetData packetLength
          :: (match R.linkedData node with
              | some false => [RunAction.initializeVoxelSendThread node]
              | _ => [])
      | none => []
    else if typeByte = R.types.PACKET_TYPE_VOXEL_JURISDICTION_REQUEST then
      if jurisdictionSender then
        [RunAction.jurisdictionSenderQueue senderAddress packetData packetLength]
      else []
    else if voxelServerPacketProcessor
        && (decide (typeByte = R.types.PACKET_TYPE_SET_VOXEL)
          || decide (typeByte = R.types.PACKET_TYPE_SET_VOXEL_DESTRUCTIVE)
          || decide (typeByte = R.types.PACKET_TYPE_ERASE_VOXEL)
          || decide (typeByte = R.types.PACKET_TYPE_Z_COMMAND)) then
      [RunAction.packetProcessorQueue senderAddress packetData packetLength]
    else
      [RunAction.processNodeData senderAddress packetData packetLength]
  else []

/-- One iteration of the receive loop inside `run`: lines 418 and 424 set both
member pointers from `new` before the loop is entered, so both are non-null. -/
def runReceive (R : RunEnv) (received : Bool) (senderAddress : Nat) (packetData : List Nat)
    (packetLength : Nat) : List RunAction :=
  receiveDispatch R true true received senderAddress packetData packetLength

/-- The components a packet can be handed to. -/
inductive Consumer
  | viewerState
  | jurisdictionSender
  | packetProcessor
  | nodeList
  deriving DecidableEq, Repr

/-- The consumer that receives the packet in a call of the receive loop; starting
a send thread hands no packet over. -/
def RunAction.consumer : RunAction → Option Consumer
  | RunAction.updateNodeWithData _ _ _ _ => some Consumer.viewerState
  | RunAction.initializeVoxelSendThread _ => none
  | RunAction.jurisdictionSenderQueue _ _ _ => some Consumer.jurisdictionSender
  | RunAction.packetProcessorQueue _ _ _ => some Consumer.packetProcessor
  | RunAction.processNodeData _ _ _ => some Consumer.nodeList

/-- The consumers one iteration hands the packet to, in order. -/
def consumers (actions : List RunAction) : List Consumer :=
  actions.filterMap RunAction.consumer

/-! ## Observations on a trace of `processPacket` -/

/-- The calls of `readCodeColorBufferToTree` in a trace, in order, each with its
pointer and its `destructive` flag. -/
def readCalls (actions : List Action) : List (Nat × Bool) :=
  actions.filterMap fun a =>
    match a with
    | Action.readCodeColorBufferToTree voxelData destructive => some (voxelData, destructive)
    | _ => none

/-- The calls of `broadcastToNodes` in a trace, in order, with their arguments. -/
def broadcastCalls (actions : List Action) : List (List Nat × Nat × List NodeType) :=
  actions.filterMap fun a =>
    match a with
    | Action.broadcastToNodes packetData packetLength nodeTypes =>
      some (packetData, packetLength, nodeTypes)
    | _ => none

/-- A call that mutates the tree. -/
def Action.mutatesTree : Action → Bool
  | Action.readCodeColorBufferToTree _ _ => true
  | Action.processRemoveVoxelBitstream _ _ => true
  | _ => false

/-- A call on the tree lock. -/
def Action.isLockOp : Action → Bool
  | Action.lockTree => true
  | Action.unlockTree => true
  | _ => false

/-- A last-heard update. -/
def Action.isLastHeard : Action → Bool
  | Action.setLastHeardMicrostamp _ => true
  | _ => false

/-- The log line of the final `else` branch of `processPacket` (line 121). -/
def Log.isUnknown : Log → Bool
  | Log.unknownPacket _ => true
  | _ => false

/-- The four type bytes of mutation packets (lines 473-476 of VoxelServer.cpp). -/
def PacketTypes.isMutation (T : PacketTypes) (typeByte : Nat) : Prop :=
  typeByte = T.PACKET_TYPE_SET_VOXEL ∨ typeByte = T.PACKET_TYPE_SET_VOXEL_DESTRUCTIVE
    ∨ typeByte = T.PACKET_TYPE_ERASE_VOXEL ∨ typeByte = T.PACKET_TYPE_Z_COMMAND

instance (T : PacketTypes) (typeByte : Nat) : Decidable (T.isMutation typeByte) := by
  unfold PacketTypes.isMutation; infer_instance

/-- Runs a trace against the tree lock, starting from `held`: the result is
`none` as soon as a tree mutation happens while the lock is not held, and
otherwise whether the lock is held at the end. -/
def lockDiscipline : Bool → List Action → Option Bool
  | held, [] => some held
  | _, Action.lockTree :: rest => lockDiscipline true rest
  | _, Action.unlockTree :: rest => lockDiscipline false rest
  | held, a :: rest => if a.mutatesTree && !held then none else lockDiscipline held rest

/-- The offsets at which back-to-back records start, the first one at `start`. -/
def recordStarts (start : Nat) : List (List Nat) → List Nat
  | [] => []
  | r :: rs => start :: recordStarts (start + r.length) rs

/-- Modelled from the spec: `bytesRequiredForCodeLength` of OctalCode.h, of which only
the calls are available.  Section 4.1: a code of `L` three-bit segments is
followed by `ceil(3·L/8)` packed bytes, and section 8: "required bytes =
ceil(3L/8) exactly (L=1→1 byte, L=8→3 bytes, L=9→4 bytes)"; computed in integer
arithmetic. -/
def bytesRequiredForCodeLength (threeBitCodes : Nat) : Nat :=
  (3 * threeBitCodes + 7) / 8

/-- Modelled from the spec: the size of a colored-node record on the wire (section
4.1): one length byte, `ceil(3·L/8)` packed code bytes, three colour bytes. -/
def wireRecordSize (codeLength : Nat) : Nat :=
  1 + ⌈(3 * (codeLength : ℚ)) / 8⌉₊ + 3

/-- A sample environment: one header byte, the byte-length helper as the spec
describes it, debug output off, and a registry that knows sender 7 as peer 42. -/
def sampleEnv : Env :=
  { types := sampleTypes
    numBytesForPacketHeader := fun _ => 1
    bytesRequiredForCodeLength := bytesRequiredForCodeLength
    TEST_COMMAND := [97]
    wantShowAnimationDebug := false
    wantsDebugVoxelReceiving := false
    nodeWithAddress := fun a => if a = 7 then some 42 else none }

/-- A sample environment whose byte-length helper counts the length byte of the
octal code, `1 + ceil(3L/8)`, the way lines 55-60 of `processPacket` use its
result; otherwise as `sampleEnv`. -/
def wholeCodeEnv : Env :=
  { sampleEnv with bytesRequiredForCodeLength := fun L => 1 + (3 * L + 7) / 8 }

/-- A sample environment of the receive loop: one header byte, every version
accepted, a registry that knows no UUID. -/
def sampleRunEnv : RunEnv :=
  { types := sampleTypes
    numBytesForPacketHeader := fun _ => 1
    packetVersionMatch := fun _ => true
    nodeWithUUID := fun _ => none
    linkedData := fun _ => none }

/-! ## The octree store -/

/-- Modelled from the spec: the RGB triple a node carries (section 3), each
component one byte (section 4.1: "3 bytes (R, G, B)"). -/
structure Color where
  red : Fin 256
  green : Fin 256
  blue : Fin 256
  deriving DecidableEq, Repr

/-- Modelled from the spec: a child slot of an octree node (the node type of
VoxelNode.h is not available).  Section 3: a node has an optional colour
and 0-8 exclusively owned children indexed 0-7; a slot is empty or owns a node. -/
inductive Child
  | empty
  | node (color : Option Color) (children : Fin 8 → Child)

/-- Modelled from the spec: an octree node (section 3), and so also a whole tree,
given by its root: optional colour and eight child slots. -/
structure OctreeNode where
  color : Option Color
  children : Fin 8 → Child

/-- Modelled from the spec: the node `createMissingNode` makes (VoxelTree.cpp is
not available).  Section 4.2: "each created node starts uncolored,
childless". -/
def OctreeNode.createMissing : OctreeNode :=
  { color := none, children := fun _ => Child.empty }

/-- Modelled from the spec: the node a slot owns and, for an empty slot, the node
created in it during the walk of section 4.2. -/
def Child.nodeOrCreate : Child → OctreeNode
  | Child.empty => OctreeNode.createMissing
  | Child.node color children => { color := color, children := children }

/-- Modelled from the spec: a node as the content of its parent's slot (strict
parent-to-child ownership, section 3). -/
def OctreeNode.toChild (n : OctreeNode) : Child :=
  Child.node n.color n.children

/-- Modelled from the spec: the walk of insert/update (section 4.2; its code,
`readCodeColorBufferToTree` with `nodeForOctalCode` and `createMissingNode`, is
only declared in VoxelTree.h).  "Walk from root creating any missing intermediate
nodes along path; set color on the terminal node"; the destructive mode discards
all children of the terminal node before the colour is set, the non-destructive
mode leaves them untouched. -/
def OctreeNode.insertAt (destructive : Bool) (color : Color) :
    List (Fin 8) → OctreeNode → OctreeNode
  | [], n =>
    { color := some color
      children := if destructive then fun _ => Child.empty else n.children }
  | i :: rest, n =>
    { color := n.color
      children := Function.update n.children i
        (OctreeNode.insertAt destructive color rest (n.children i).nodeOrCreate).toChild }

/-- Modelled from the spec: insert/update with the depth bound of sections 3 and
7: "path length is bounded by a fixed maximum tree depth", and a record whose
code length exceeds it is skipped (PathTooDeep). -/
def OctreeNode.insert (maxDepth : Nat) (destructive : Bool) (t : OctreeNode)
    (path : List (Fin 8)) (color : Color) : OctreeNode :=
  if path.length ≤ maxDepth then t.insertAt destructive color path else t

/-- Modelled from the spec: lookup by path (section 4.2): "walk child indices in
path; returns the deepest existing node (exact match or nearest ancestor)",
together with the depth at which it was found. -/
def OctreeNode.lookup : List (Fin 8) → OctreeNode → Nat × OctreeNode
  | [], n => (0, n)
  | i :: rest, n =>
    match n.children i with
    | Child.empty => (0, n)
    | Child.node color children =>
      let found := OctreeNode.lookup rest { color := color, children := children }
      (found.1 + 1, found.2)

/-- Modelled from the spec: the node whose `path` (section 3) is the given one,
when the tree has a node there. -/
def OctreeNode.nodeAt : List (Fin 8) → OctreeNode → Option OctreeNode
  | [], n => some n
  | i :: rest, n =>
    match n.children i with
    | Child.empty => none
    | Child.node color children =>
      OctreeNode.nodeAt rest { color := color, children := children }

/-- Modelled from the spec: the node at the given path below a slot: none below
an empty slot, and otherwise the node found from the slot's node. -/
def Child.nodeAt (path : List (Fin 8)) : Child → Option OctreeNode
  | Child.empty => none
  | Child.node color children =>
    OctreeNode.nodeAt path { color := color, children := children }

/-- Modelled from the spec: the colour of the node at the given path; `none` both
when the tree has no node there and when the node carries no colour. -/
def OctreeNode.colorAt (path : List (Fin 8)) (t : OctreeNode) : Option Color :=
  (t.nodeAt path).bind OctreeNode.color

/-- Modelled from the spec: whether a slot is empty. -/
def Child.isEmpty : Child → Bool
  | Child.empty => true
  | Child.node _ _ => false

/-- Modelled from the spec: erase below a slot (section 4.2; its code,
`processRemoveVoxelBitstream`, is called but not defined in the code at hand).  "Walk to the
target node and detach it from its parent (drop ownership, freeing the whole
subtree)"; with `collapse` set, a parent left with zero children and no colour
is detached in turn.  The result is `none` when the slot has no node at the
path, so that nothing is removed, and otherwise the new content of the slot. -/
def Child.erase (collapse : Bool) : List (Fin 8) → Child → Option Child
  | _, Child.empty => none
  | [], Child.node _ _ => some Child.empty
  | i :: rest, Child.node color children =>
    match Child.erase collapse rest (children i) with
    | none => none
    | some slot =>
      if collapse && color.isNone
          && (List.finRange 8).all (fun j => (Function.update children i slot j).isEmpty) then
        some Child.empty
      else some (Child.node color (Function.update children i slot))

/-- Modelled from the spec: erase on a tree (section 4.2).  The root has no
parent to be detached from and is never removed (section 3: the tree owns its
root for its whole life); "erase of a path with no existing node is a no-op (no
error, no structural change)".  The operation has no error result. -/
def OctreeNode.erase (collapse : Bool) (t : OctreeNode) : List (Fin 8) → OctreeNode
  | [] => t
  | i :: rest =>
    match Child.erase collapse rest (t.children i) with
    | none => t
    | some slot => { color := t.color, children := Function.update t.children i slot }

/-! ## The spatial codec -/

/-- Modelled from the spec: the three bits of a path segment, most significant
first (section 4.1: segments are packed MSB-first). -/
def segmentBits (segment : Fin 8) : List Bool :=
  [segment.val / 4 % 2 == 1, segment.val / 2 % 2 == 1, segment.val % 2 == 1]

/-- Modelled from the spec: the path segment given by the first three bits of a
bit sequence, most significant first. -/
def segmentOfBits (bits : List Bool) : Fin 8 :=
  Fin.ofNat (4 * (bits.getD 0 false).toNat + 2 * (bits.getD 1 false).toNat
    + (bits.getD 2 false).toNat)

/-- Modelled from the spec: the byte holding the first eight bits of a bit
sequence, most significant first; missing bits are zero (section 4.1:
"zero-padded in the final byte"). -/
def byteOfBits (bits : List Bool) : Nat :=
  128 * (bits.getD 0 false).toNat + 64 * (bits.getD 1 false).toNat
    + 32 * (bits.getD 2 false).toNat + 16 * (bits.getD 3 false).toNat
    + 8 * (bits.getD 4 false).toNat + 4 * (bits.getD 5 false).toNat
    + 2 * (bits.getD 6 false).toNat + (bits.getD 7 false).toNat

/-- Modelled from the spec: the eight bits of a byte, most significant first. -/
def bitsOfByte (byte : Nat) : List Bool :=
  [byte / 128 % 2 == 1, byte / 64 % 2 == 1, byte / 32 % 2 == 1, byte / 16 % 2 == 1,
    byte / 8 % 2 == 1, byte / 4 % 2 == 1, byte / 2 % 2 == 1, byte % 2 == 1]

/-- Modelled from the spec: a bit sequence packed into the given number of
bytes. -/
def packBits : Nat → List Bool → List Nat
  | 0, _ => []
  | n + 1, bits => byteOfBits bits :: packBits n (bits.drop 8)

/-- Modelled from the spec: the given number of path segments read from a bit
sequence, three bits each. -/
def unpackSegments : Nat → List Bool → List (Fin 8)
  | 0, _ => []
  | n + 1, bits => segmentOfBits bits :: unpackSegments n (bits.drop 3)

/-- Modelled from the spec: the octal code of a path (section 4.1): "one length
byte L = number of 3-bit path segments, followed by ceil(3·L/8) bytes packing the
L segments MSB-first, zero-padded in the final byte".  The length travels in one
byte, so it is taken modulo 256. -/
def encodeOctalCode (path : List (Fin 8)) : List Nat :=
  (path.length % 256)
    :: packBits (bytesRequiredForCodeLength path.length) (path.flatMap segmentBits)

/-- Modelled from the spec: a colored-node record (section 4.1): "octal code
bytes, immediately followed by 3 bytes (R, G, B)". -/
def encodeRecord (record : List (Fin 8) × Color) : List Nat :=
  encodeOctalCode record.1 ++ [record.2.red.val, record.2.green.val, record.2.blue.val]

/-- Modelled from the spec: the record read from a length byte and the bytes
after it (section 4.1: "code length → code bytes → 3 color bytes"). -/
def decodeRecord (codeLength : Nat) (rest : List Nat) : List (Fin 8) × Color :=
  (unpackSegments codeLength
      ((rest.take (bytesRequiredForCodeLength codeLength)).flatMap bitsOfByte),
    { red := Fin.ofNat (rest.getD (bytesRequiredForCodeLength codeLength) 0)
      green := Fin.ofNat (rest.getD (bytesRequiredForCodeLength codeLength + 1) 0)
      blue := Fin.ofNat (rest.getD (bytesRequiredForCodeLength codeLength + 2) 0) })

/-- Modelled from the spec: decode stream (section 4.1): "repeatedly reads one
record until the supplied buffer is exhausted; each record independently yields
(path, color); malformed trailing bytes (insufficient bytes for a declared code
length) signal a decode error and abort the remaining stream".  The result is the
records read and whether a decode error was signalled. -/
def decodeStream : List Nat → List (List (Fin 8) × Color) × Bool
  | [] => ([], false)
  | codeLength :: rest =>
    if rest.length < bytesRequiredForCodeLength codeLength + 3 then ([], true)
    else
      ((decodeRecord codeLength rest
          :: (decodeStream (rest.drop (bytesRequiredForCodeLength codeLength + 3))).1),
        (decodeStream (rest.drop (bytesRequiredForCodeLength codeLength + 3))).2)
termination_by bytes => bytes.length
decreasing_by
  all_goals simp only [List.length_drop, List.length_cons]
  all_goals omega

/-- Modelled from the spec: the records decoded from a stream applied to a tree
one after the other, each by a non-destructive insert (sections 4.1 and 4.5). -/
def loadRecords (treeMaxDepth : Nat) (records : List (List (Fin 8) × Color))
    (t : OctreeNode) : OctreeNode :=
  records.foldl (fun tree record => tree.insert treeMaxDepth false record.1 record.2) t

/-- Modelled from the spec: `readBitstreamToTree` (declared in VoxelTree.h): a
byte stream decoded and loaded into a tree. -/
def readBitstreamToTree (treeMaxDepth : Nat) (bitstream : List Nat) (t : OctreeNode) :
    OctreeNode :=
  loadRecords treeMaxDepth (decodeStream bitstream).1 t

/-- Modelled from the spec: encode subtree (section 4.1), as the records of the
subtree in a slot, paths relative to the slot: "depth-first traversal emitting one
colored-node record per colored node encountered, in child-index order (0→7);
traversal stops at a configurable maximum depth".  The first argument is the
number of levels still to be visited. -/
def Child.records : Nat → Child → List (List (Fin 8) × Color)
  | _, Child.empty => []
  | 0, Child.node _ _ => []
  | levels + 1, Child.node color children =>
    (match color with
      | some c => [([], c)]
      | none => [])
      ++ (List.finRange 8).flatMap
        (fun i => (Child.records levels (children i)).map (fun r => (i :: r.1, r.2)))

/-- Modelled from the spec: the records the encoder emits for a tree, visiting
nodes down to depth `maxDepth`. -/
def OctreeNode.records (maxDepth : Nat) (t : OctreeNode) : List (List (Fin 8) × Color) :=
  Child.records (maxDepth + 1) t.toChild

/-- Modelled from the spec: `loadBitstreamBuffer` (declared in VoxelTree.h): the
byte stream of the encoder, its records one after the other with no outer
framing (section 6).  It reads the tree and returns only the stream. -/
def OctreeNode.loadBitstreamBuffer (maxDepth : Nat) (t : OctreeNode) : List Nat :=
  (t.records maxDepth).flatMap encodeRecord

/-- Modelled from the spec: whether the subtree in a slot has no node beyond the
given number of levels. -/
def Child.fitsDepth : Nat → Child → Bool
  | _, Child.empty => true
  | 0, Child.node _ _ => false
  | levels + 1, Child.node _ children =>
    (List.finRange 8).all (fun i => Child.fitsDepth levels (children i))

/-- Modelled from the spec: the depth of the tree (the longest path of a node)
is at most `depth`. -/
def OctreeNode.depthAtMost (depth : Nat) (t : OctreeNode) : Prop :=
  t.toChild.fitsDepth (depth + 1) = true

instance (depth : Nat) (t : OctreeNode) : Decidable (t.depthAtMost depth) := by
  unfold OctreeNode.depthAtMost; infer_instance

/-! ## Lemmas on the record loop -/

theorem readCalls_append (xs ys : List Action) :
    readCalls (xs ++ ys) = readCalls xs ++ readCalls ys := by
  simp [readCalls, List.filterMap_append]

theorem setVoxelLoop_exit (E : Env) (packetData : List Nat) (packetLength : Nat) (destructive : Bool)
    (voxelData atByte : Nat) (h : packetLength ≤ atByte) :
    setVoxelLoop E packetData packetLength destructive voxelData atByte = [] := by
  rw [setVoxelLoop]
  simp [Nat.not_lt.mpr h]

theorem readCalls_setVoxelLoop_step (E : Env) (packetData : List Nat) (packetLength : Nat)
    (destructive : Bool) (voxelData atByte : Nat) (h : atByte < packetLength) :
    readCalls (setVoxelLoop E packetData packetLength destructive voxelData atByte)
      = (voxelData, destructive)
        :: readCalls (setVoxelLoop E packetData packetLength destructive
            (voxelData + (E.bytesRequiredForCodeLength (packetData.getD voxelData 0) + 3))
            (atByte + (E.bytesRequiredForCodeLength (packetData.getD voxelData 0) + 3))) := by
  rw [setVoxelLoop]
  simp only [h, if_true, voxelDataSize, voxelCodeSize, COLOR_SIZE_IN_BYTES, readCalls_append]
  cases E.wantShowAnimationDebug <;> simp [readCalls]

theorem readCalls_setVoxelLoop_records (E : Env) (packetLength : Nat) (destructive : Bool) :
    ∀ (records : List (List Nat)) (pre rest : List Nat),
      (∀ r ∈ records, r.length = E.bytesRequiredForCodeLength (r.headD 0) + 3) →
      pre.length + records.flatten.length ≤ packetLength →
      readCalls (setVoxelLoop E (pre ++ (records.flatten ++ rest)) packetLength destructive
          pre.length pre.length)
        = (recordStarts pre.length records).map (fun s => (s, destructive))
          ++ readCalls (setVoxelLoop E (pre ++ (records.flatten ++ rest)) packetLength destructive
              (pre.length + records.flatten.length) (pre.length + records.flatten.length)) := by
  intro records
  induction records with
  | nil => intro pre rest _ _; simp [recordStarts]
  | cons r rs ih =>
    intro pre rest hrec hlen
    have hr : r.length = E.bytesRequiredForCodeLength (r.headD 0) + 3 :=
      hrec r (List.mem_cons_self r rs)
    have hrs : ∀ x ∈ rs, x.length = E.bytesRequiredForCodeLength (x.headD 0) + 3 :=
      fun x hx => hrec x (List.mem_cons_of_mem r hx)
    have hflat : (r :: rs).flatten.length = r.length + rs.flatten.length := by simp
    have hoct : (pre ++ ((r :: rs).flatten ++ rest)).getD pre.length 0 = r.headD 0 := by
      rw [List.getD_append_right _ _ _ _ (Nat.le_refl _)]
      cases r with
      | nil => simp at hr
      | cons b bs => simp
    have hlt : pre.length < packetLength := by omega
    rw [readCalls_setVoxelLoop_step E _ _ _ _ _ hlt, hoct, ← hr]
    have hdata : pre ++ ((r :: rs).flatten ++ rest) = (pre ++ r) ++ (rs.flatten ++ rest) := by
      simp [List.append_assoc]
    have ih2 := ih (pre ++ r) rest hrs (by simp only [List.length_append]; omega)
    rw [List.length_append] at ih2
    rw [hdata, ih2, hflat]
    simp [recordStarts, Nat.add_assoc]

theorem recordStarts_eq_range (records : List (List Nat)) :
    ∀ start : Nat, recordStarts start records
      = (List.range records.length).map (fun i => start + ((records.take i).flatten).length) := by
  induction records with
  | nil => intro start; simp [recordStarts]
  | cons r rs ih =>
    intro start
    rw [recordStarts, ih, List.length_cons, List.range_succ_eq_map]
    simp [List.map_map, Function.comp_def, Nat.add_assoc]

theorem ceil_three_eighths (L : Nat) : ⌈((3 * L : Nat) : ℚ) / 8⌉₊ = (3 * L + 7) / 8 := by
  apply le_antisymm
  · rw [Nat.ceil_le, div_le_iff₀ (by norm_num : (0 : ℚ) < 8)]
    have h : 3 * L ≤ (3 * L + 7) / 8 * 8 := by omega
    exact_mod_cast h
  · by_contra hlt
    push_neg at hlt
    have h1 : ⌈((3 * L : Nat) : ℚ) / 8⌉₊ + 1 ≤ (3 * L + 7) / 8 := hlt
    have h2 : ((3 * L : Nat) : ℚ) / 8 ≤ (⌈((3 * L : Nat) : ℚ) / 8⌉₊ : ℚ) := Nat.le_ceil _
    rw [div_le_iff₀ (by norm_num : (0 : ℚ) < 8)] at h2
    have h3 : 3 * L ≤ ⌈((3 * L : Nat) : ℚ) / 8⌉₊ * 8 := by exact_mod_cast h2
    omega

/-- C1: for a SET_VOXEL or SET_VOXEL_DESTRUCTIVE packet whose bytes after the
header and the 2-byte item number are back-to-back records, record `i` of size
`bytesRequiredForCodeLength(L_i) + 3` with `L_i` its first byte, that exactly fill
the packet, `processPacket` calls `readCodeColorBufferToTree` once per record, in
stream order, the `i`-th call pointing at the first byte of record `i`, and every
call carries `destructive = true` exactly when the type byte is
SET_VOXEL_DESTRUCTIVE.  (`rest` is what the receive buffer holds beyond
`packetLength`.) -/
theorem processPacket_setVoxel_reads_each_record (E : Env)
    (receivedPacketCount senderAddress : Nat) (pre : List Nat) (records : List (List Nat))
    (rest : List Nat)
    (hpre : pre.length = E.numBytesForPacketHeader (pre ++ (records.flatten ++ rest)) + 2)
    (hrec : ∀ r ∈ records, r.length = E.bytesRequiredForCodeLength (r.headD 0) + 3)
    (htype : (pre ++ (records.flatten ++ rest)).getD 0 0 = E.types.PACKET_TYPE_SET_VOXEL
      ∨ (pre ++ (records.flatten ++ rest)).getD 0 0 = E.types.PACKET_TYPE_SET_VOXEL_DESTRUCTIVE) :
    readCalls (processPacket E receivedPacketCount senderAddress
        (pre ++ (records.flatten ++ rest)) (pre.length + records.flatten.length)).2
      = (List.range records.length).map (fun i =>
          (pre.length + ((records.take i).flatten).length,
            decide ((pre ++ (records.flatten ++ rest)).getD 0 0
              = E.types.PACKET_TYPE_SET_VOXEL_DESTRUCTIVE))) := by
  have hloop := readCalls_setVoxelLoop_records E (pre.length + records.flatten.length)
    (decide ((pre ++ (records.flatten ++ rest)).getD 0 0
      = E.types.PACKET_TYPE_SET_VOXEL_DESTRUCTIVE)) records pre rest hrec (Nat.le_refl _)
  rw [setVoxelLoop_exit E _ _ _ _ _ (Nat.le_refl _)] at hloop
  simp only [processPacket, if_pos htype, readCalls_append, ← hpre, hloop]
  rw [recordStarts_eq_range]
  cases E.wantShowAnimationDebug <;> cases E.wantsDebugVoxelReceiving <;>
    cases hn : E.nodeWithAddress senderAddress <;>
    simp [readCalls, markLastHeard, hn, List.map_map, Function.comp_def]

/-- Witness of C1: a SET_VOXEL_DESTRUCTIVE packet with one header byte and two
records, of code lengths 2 and 0. -/
theorem processPacket_setVoxel_reads_each_record_witness :
    readCalls (processPacket sampleEnv 0 7
        ([79, 0, 0] ++ ([[2, 136, 255, 0], [0, 9, 9]].flatten ++ [5, 5]))
        ([79, 0, 0].length + [[2, 136, 255, 0], [0, 9, 9]].flatten.length)).2
      = (List.range [[2, 136, 255, 0], [0, 9, 9]].length).map (fun i =>
          ([79, 0, 0].length + (([[2, 136, 255, 0], [0, 9, 9]].take i).flatten).length,
            decide (([79, 0, 0] ++ ([[2, 136, 255, 0], [0, 9, 9]].flatten ++ [5, 5])).getD 0 0
              = sampleEnv.types.PACKET_TYPE_SET_VOXEL_DESTRUCTIVE))) :=
  processPacket_setVoxel_reads_each_record sampleEnv 0 7 [79, 0, 0]
    [[2, 136, 255, 0], [0, 9, 9]] [5, 5] (by decide) (by decide) (by decide)

theorem setVoxelLoop_step (E : Env) (packetData : List Nat) (packetLength : Nat)
    (destructive : Bool) (voxelData atByte : Nat) (h : atByte < packetLength) :
    setVoxelLoop E packetData packetLength destructive voxelData atByte
        = (if E.wantShowAnimationDebug then
            [Action.printf (Log.insertingVoxel
              (packetData.getD
                (voxelData + E.bytesRequiredForCodeLength (packetData.getD voxelData 0)) 0)
              (packetData.getD
                (voxelData + E.bytesRequiredForCodeLength (packetData.getD voxelData 0) + 1) 0)
              (packetData.getD
                (voxelData + E.bytesRequiredForCodeLength (packetData.getD voxelData 0) + 2) 0))]
            else [])
          ++ Action.readCodeColorBufferToTree voxelData destructive
            :: setVoxelLoop E packetData packetLength destructive
              (voxelData + (E.bytesRequiredForCodeLength (packetData.getD voxelData 0) + 3))
              (atByte + (E.bytesRequiredForCodeLength (packetData.getD voxelData 0) + 3)) := by
  rw [setVoxelLoop]
  simp only [h, if_true, voxelDataSize, voxelCodeSize, COLOR_SIZE_IN_BYTES, Nat.add_zero,
    Nat.add_assoc]

theorem ceil_three_eighths_cast (L : Nat) : ⌈(3 * (L : ℚ)) / 8⌉₊ = (3 * L + 7) / 8 := by
  have h := ceil_three_eighths L
  push_cast at h
  exact h

/-- C2 (as amended): for a SET_VOXEL or SET_VOXEL_DESTRUCTIVE packet made of
complete records followed by a last record that is truncated (it starts inside
the packet, but its declared size `bytesRequiredForCodeLength(L) + 3` exceeds the
bytes that remain), `processPacket` passes every complete record and then the
truncated one to `readCodeColorBufferToTree`, and makes no call after it: the
loop only tests `atByte < packetLength`. -/
theorem processPacket_setVoxel_truncated_last_record (E : Env)
    (receivedPacketCount senderAddress : Nat) (pre : List Nat) (records : List (List Nat))
    (last rest : List Nat)
    (hpre : pre.length
      = E.numBytesForPacketHeader (pre ++ (records.flatten ++ (last ++ rest))) + 2)
    (hrec : ∀ r ∈ records, r.length = E.bytesRequiredForCodeLength (r.headD 0) + 3)
    (hne : last ≠ [])
    (htrunc : last.length < E.bytesRequiredForCodeLength (last.headD 0) + 3)
    (htype : (pre ++ (records.flatten ++ (last ++ rest))).getD 0 0
        = E.types.PACKET_TYPE_SET_VOXEL
      ∨ (pre ++ (records.flatten ++ (last ++ rest))).getD 0 0
        = E.types.PACKET_TYPE_SET_VOXEL_DESTRUCTIVE) :
    readCalls (processPacket E receivedPacketCount senderAddress
        (pre ++ (records.flatten ++ (last ++ rest)))
        (pre.length + records.flatten.length + last.length)).2
      = (List.range (records.length + 1)).map (fun i =>
          (pre.length + ((records.take i).flatten).length,
            decide ((pre ++ (records.flatten ++ (last ++ rest))).getD 0 0
              = E.types.PACKET_TYPE_SET_VOXEL_DESTRUCTIVE))) := by
  have hpos : 0 < last.length := List.length_pos.mpr hne
  have hloop := readCalls_setVoxelLoop_records E
    (pre.length + records.flatten.length + last.length)
    (decide ((pre ++ (records.flatten ++ (last ++ rest))).getD 0 0
      = E.types.PACKET_TYPE_SET_VOXEL_DESTRUCTIVE)) records pre (last ++ rest) hrec (by omega)
  have hoct : (pre ++ (records.flatten ++ (last ++ rest))).getD
      (pre.length + records.flatten.length) 0 = last.headD 0 := by
    rw [← List.append_assoc, List.getD_append_right _ _ _ _ (by simp)]
    cases last with
    | nil => exact absurd rfl hne
    | cons b bs => simp
  have hlast := readCalls_setVoxelLoop_step E (pre ++ (records.flatten ++ (last ++ rest)))
    (pre.length + records.flatten.length + last.length)
    (decide ((pre ++ (records.flatten ++ (last ++ rest))).getD 0 0
      = E.types.PACKET_TYPE_SET_VOXEL_DESTRUCTIVE))
    (pre.length + records.flatten.length) (pre.length + records.flatten.length) (by omega)
  have hexit := setVoxelLoop_exit E (pre ++ (records.flatten ++ (last ++ rest)))
    (pre.length + records.flatten.length + last.length)
    (decide ((pre ++ (records.flatten ++ (last ++ rest))).getD 0 0
      = E.types.PACKET_TYPE_SET_VOXEL_DESTRUCTIVE))
    (pre.length + records.flatten.length + (E.bytesRequiredForCodeLength (last.headD 0) + 3))
    (pre.length + records.flatten.length + (E.bytesRequiredForCodeLength (last.headD 0) + 3))
    (by omega)
  rw [hoct, hexit] at hlast
  rw [hlast] at hloop
  simp only [processPacket, if_pos htype, readCalls_append, ← hpre, hloop]
  rw [recordStarts_eq_range, List.range_succ, List.map_append, List.map_singleton,
    List.take_length]
  cases E.wantShowAnimationDebug <;> cases E.wantsDebugVoxelReceiving <;>
    cases hn : E.nodeWithAddress senderAddress <;>
    simp [readCalls, markLastHeard, hn, List.map_map, Function.comp_def]

/-- Witness of the amended C2: one complete record of code length 0, then a
record that declares code length 9 with two bytes left. -/
theorem processPacket_setVoxel_truncated_last_record_witness :
    readCalls (processPacket sampleEnv 0 7
        ([83, 0, 0] ++ ([[0, 9, 9]].flatten ++ ([9, 1] ++ [])))
        ([83, 0, 0].length + [[0, 9, 9]].flatten.length + [9, 1].length)).2
      = (List.range ([[0, 9, 9]].length + 1)).map (fun i =>
          ([83, 0, 0].length + (([[0, 9, 9]].take i).flatten).length,
            decide (([83, 0, 0] ++ ([[0, 9, 9]].flatten ++ ([9, 1] ++ []))).getD 0 0
              = sampleEnv.types.PACKET_TYPE_SET_VOXEL_DESTRUCTIVE))) :=
  processPacket_setVoxel_truncated_last_record sampleEnv 0 7 [83, 0, 0] [[0, 9, 9]] [9, 1] []
    (by decide) (by decide) (by decide) (by decide) (by decide)

theorem processPacket_sample_truncated :
    (processPacket sampleEnv 0 7 [83, 0, 0, 9, 1] 5).2
      = [Action.readCodeColorBufferToTree 3 false, Action.setLastHeardMicrostamp 42] := by
  simp [processPacket, sampleEnv, sampleTypes, setVoxelLoop, markLastHeard, voxelDataSize,
    bytesRequiredForCodeLength, COLOR_SIZE_IN_BYTES]

/-- C2 fails as stated: in a five-byte SET_VOXEL packet whose only record
declares code length 9 while two bytes remain, that record is passed to
`readCodeColorBufferToTree`. -/
theorem processPacket_passes_truncated_record :
    ∃ call ∈ readCalls (processPacket sampleEnv 0 7 [83, 0, 0, 9, 1] 5).2,
      5 - call.1 < sampleEnv.bytesRequiredForCodeLength ([83, 0, 0, 9, 1].getD call.1 0) + 3 := by
  rw [processPacket_sample_truncated]
  exact ⟨(3, false), by simp [readCalls], by decide⟩

/-- C3 at a failing input: for a SET_VOXEL packet with one record the trace is a
`readCodeColorBufferToTree` call and nothing before it, so the tree is mutated
while the lock is not held (`lockDiscipline` gives `none`); the ERASE_VOXEL
branch on the same server takes and releases the lock around its mutation. -/
theorem processPacket_setVoxel_mutates_without_lock :
    (processPacket sampleEnv 0 7 [83, 0, 0, 0, 255, 0] 6).2
        = [Action.readCodeColorBufferToTree 3 false, Action.setLastHeardMicrostamp 42]
      ∧ lockDiscipline false (processPacket sampleEnv 0 7 [83, 0, 0, 0, 255, 0] 6).2 = none
      ∧ lockDiscipline false (processPacket sampleEnv 0 7 [69, 0, 0, 0] 4).2 = some false := by
  have h : (processPacket sampleEnv 0 7 [83, 0, 0, 0, 255, 0] 6).2
      = [Action.readCodeColorBufferToTree 3 false, Action.setLastHeardMicrostamp 42] := by
    simp [processPacket, sampleEnv, sampleTypes, setVoxelLoop, markLastHeard, voxelDataSize,
      bytesRequiredForCodeLength, COLOR_SIZE_IN_BYTES]
  refine ⟨h, ?_, by decide⟩
  rw [h]
  decide

/-- C5: the byte-length helper returns exactly `ceil(3L/8)` for every code length
`L`, in integer arithmetic; in particular 0 for 0, 1 for 1, 1 for 2, 3 for 8 and
4 for 9. -/
theorem bytesRequiredForCodeLength_eq_ceil (L : Nat) :
    bytesRequiredForCodeLength L = ⌈(3 * (L : ℚ)) / 8⌉₊
      ∧ bytesRequiredForCodeLength 0 = 0 ∧ bytesRequiredForCodeLength 1 = 1
      ∧ bytesRequiredForCodeLength 2 = 1 ∧ bytesRequiredForCodeLength 8 = 3
      ∧ bytesRequiredForCodeLength 9 = 4 :=
  ⟨(ceil_three_eighths_cast L).symm, by decide, by decide, by decide, by decide, by decide⟩

theorem setVoxelLoop_forall (P : Action → Prop)
    (hprint : ∀ l, l.isUnknown = false → P (Action.printf l))
    (hread : ∀ v d, P (Action.readCodeColorBufferToTree v d)) (E : Env) (packetData : List Nat)
    (packetLength : Nat) (destructive : Bool) :
    ∀ (n voxelData atByte : Nat), packetLength - atByte = n →
      ∀ a ∈ setVoxelLoop E packetData packetLength destructive voxelData atByte, P a := by
  intro n
  induction n using Nat.strong_induction_on with
  | _ n ih =>
    intro voxelData atByte hn a ha
    by_cases hlt : atByte < packetLength
    · rw [(setVoxelLoop_step E packetData packetLength destructive voxelData atByte
        hlt)] at ha
      rcases List.mem_append.mp ha with h | h
      · cases hdbg : E.wantShowAnimationDebug <;> simp [hdbg] at h
        rw [h]; exact hprint _ rfl
      · rcases List.mem_cons.mp h with h | h
        · rw [h]; exact hread _ _
        · exact ih (packetLength - (atByte
            + (E.bytesRequiredForCodeLength (packetData.getD voxelData 0) + 3))) (by omega)
            _ _ rfl a h
    · rw [setVoxelLoop_exit E _ _ _ _ _ (Nat.le_of_not_lt hlt)] at ha
      simp at ha

theorem zCommandLoopActions_forall (iterations : List (Nat × Bool)) :
    ∀ a ∈ zCommandLoopActions iterations, a = Action.printf Log.gotTestCommand := by
  intro a ha
  simp only [zCommandLoopActions, List.mem_filterMap] at ha
  obtain ⟨it, _, hit⟩ := ha
  cases hb : it.2 <;> simp [hb] at hit
  exact hit.symm

theorem processPacket_set (E : Env) (receivedPacketCount senderAddress : Nat)
    (packetData : List Nat) (packetLength : Nat)
    (h : packetData.getD 0 0 = E.types.PACKET_TYPE_SET_VOXEL
      ∨ packetData.getD 0 0 = E.types.PACKET_TYPE_SET_VOXEL_DESTRUCTIVE) :
    (processPacket E receivedPacketCount senderAddress packetData packetLength).2
      = (if E.wantShowAnimationDebug then
          [Action.printf (Log.gotCommand
            (decide (packetData.getD 0 0 = E.types.PACKET_TYPE_SET_VOXEL_DESTRUCTIVE))
            packetLength (itemNumberAt packetData (E.numBytesForPacketHeader packetData)))]
          else [])
        ++ (if E.wantsDebugVoxelReceiving then
          [Action.printf (Log.gotCountedCommand
            (decide (packetData.getD 0 0 = E.types.PACKET_TYPE_SET_VOXEL_DESTRUCTIVE))
            (receivedPacketCount + 1) packetLength
            (itemNumberAt packetData (E.numBytesForPacketHeader packetData)))]
          else [])
        ++ setVoxelLoop E packetData packetLength
          (decide (packetData.getD 0 0 = E.types.PACKET_TYPE_SET_VOXEL_DESTRUCTIVE))
          (E.numBytesForPacketHeader packetData + 2) (E.numBytesForPacketHeader packetData + 2)
        ++ markLastHeard E senderAddress := by
  simp only [processPacket, if_pos h]

theorem processPacket_set_init_forall (P : Action → Prop)
    (hprint : ∀ l, l.isUnknown = false → P (Action.printf l))
    (hread : ∀ v d, P (Action.readCodeColorBufferToTree v d)) (E : Env)
    (receivedPacketCount : Nat) (packetData : List Nat) (packetLength : Nat) :
    ∀ a ∈ (if E.wantShowAnimationDebug then
          [Action.printf (Log.gotCommand
            (decide (packetData.getD 0 0 = E.types.PACKET_TYPE_SET_VOXEL_DESTRUCTIVE))
            packetLength (itemNumberAt packetData (E.numBytesForPacketHeader packetData)))]
          else [])
        ++ (if E.wantsDebugVoxelReceiving then
          [Action.printf (Log.gotCountedCommand
            (decide (packetData.getD 0 0 = E.types.PACKET_TYPE_SET_VOXEL_DESTRUCTIVE))
            (receivedPacketCount + 1) packetLength
            (itemNumberAt packetData (E.numBytesForPacketHeader packetData)))]
          else [])
        ++ setVoxelLoop E packetData packetLength
          (decide (packetData.getD 0 0 = E.types.PACKET_TYPE_SET_VOXEL_DESTRUCTIVE))
          (E.numBytesForPacketHeader packetData + 2) (E.numBytesForPacketHeader packetData + 2),
      P a := by
  intro a ha
  rcases List.mem_append.mp ha with h | h
  · rcases List.mem_append.mp h with h | h
    · cases hdbg : E.wantShowAnimationDebug <;> simp [hdbg] at h
      rw [h]; exact hprint _ rfl
    · cases hdbg : E.wantsDebugVoxelReceiving <;> simp [hdbg] at h
      rw [h]; exact hprint _ rfl
  · exact setVoxelLoop_forall P hprint hread E _ _ _ _ _ _ rfl a h

theorem processPacket_set_no_lock_op (E : Env) (receivedPacketCount senderAddress : Nat)
    (packetData : List Nat) (packetLength : Nat)
    (h : packetData.getD 0 0 = E.types.PACKET_TYPE_SET_VOXEL
      ∨ packetData.getD 0 0 = E.types.PACKET_TYPE_SET_VOXEL_DESTRUCTIVE) :
    ∀ a ∈ (processPacket E receivedPacketCount senderAddress packetData packetLength).2,
      a.isLockOp = false := by
  intro a ha
  rw [processPacket_set E _ _ _ _ h] at ha
  rcases List.mem_append.mp ha with h1 | h1
  · exact processPacket_set_init_forall (fun a => a.isLockOp = false) (fun _ _ => rfl)
      (fun _ _ => rfl) E receivedPacketCount packetData packetLength a h1
  · unfold markLastHeard at h1
    cases hn : E.nodeWithAddress senderAddress <;> simp [hn] at h1
    rw [h1]; rfl

theorem processPacket_erase (E : Env) (receivedPacketCount senderAddress : Nat)
    (packetData : List Nat) (packetLength : Nat)
    (h : ¬ (packetData.getD 0 0 = E.types.PACKET_TYPE_SET_VOXEL
      ∨ packetData.getD 0 0 = E.types.PACKET_TYPE_SET_VOXEL_DESTRUCTIVE))
    (he : packetData.getD 0 0 = E.types.PACKET_TYPE_ERASE_VOXEL) :
    (processPacket E receivedPacketCount senderAddress packetData packetLength).2
      = [Action.lockTree, Action.processRemoveVoxelBitstream packetData packetLength,
          Action.unlockTree] ++ markLastHeard E senderAddress := by
  simp only [processPacket, if_neg h, if_pos he]

theorem processPacket_zCommand (E : Env) (receivedPacketCount senderAddress : Nat)
    (packetData : List Nat) (packetLength : Nat)
    (h : ¬ (packetData.getD 0 0 = E.types.PACKET_TYPE_SET_VOXEL
      ∨ packetData.getD 0 0 = E.types.PACKET_TYPE_SET_VOXEL_DESTRUCTIVE))
    (he : ¬ packetData.getD 0 0 = E.types.PACKET_TYPE_ERASE_VOXEL)
    (hz : packetData.getD 0 0 = E.types.PACKET_TYPE_Z_COMMAND) :
    (processPacket E receivedPacketCount senderAddress packetData packetLength).2
      = (Action.printf (Log.gotZMessage packetLength
            ((packetData.drop (E.numBytesForPacketHeader packetData)).take
              (strlen (packetData.drop (E.numBytesForPacketHeader packetData)))))
          :: zCommandLoopActions (zCommandLoop E
              (packetData.drop (E.numBytesForPacketHeader packetData))
              (strlen (packetData.drop (E.numBytesForPacketHeader packetData))) packetLength
              (E.numBytesForPacketHeader packetData
                + strlen (packetData.drop (E.numBytesForPacketHeader packetData)) + 1))
          ++ [Action.printf Log.rebroadcasting])
        ++ [Action.broadcastToNodes packetData packetLength [NodeType.NODE_TYPE_AGENT]]
        ++ markLastHeard E senderAddress := by
  simp only [processPacket, if_neg h, if_neg he, if_pos hz, if_true]
  simp

theorem processPacket_zCommand_prints_forall (E : Env) (packetData : List Nat)
    (packetLength : Nat) :
    ∀ a ∈ (Action.printf (Log.gotZMessage packetLength
            ((packetData.drop (E.numBytesForPacketHeader packetData)).take
              (strlen (packetData.drop (E.numBytesForPacketHeader packetData)))))
          :: zCommandLoopActions (zCommandLoop E
              (packetData.drop (E.numBytesForPacketHeader packetData))
              (strlen (packetData.drop (E.numBytesForPacketHeader packetData))) packetLength
              (E.numBytesForPacketHeader packetData
                + strlen (packetData.drop (E.numBytesForPacketHeader packetData)) + 1))
          ++ [Action.printf Log.rebroadcasting]),
      ∃ l, a = Action.printf l ∧ l.isUnknown = false := by
  intro a ha
  rcases List.mem_cons.mp ha with h | h
  · exact ⟨_, h, rfl⟩
  · rcases List.mem_append.mp h with h | h
    · exact ⟨_, zCommandLoopActions_forall _ a h, rfl⟩
    · exact ⟨_, List.mem_singleton.mp h, rfl⟩

theorem processPacket_unknown (E : Env) (receivedPacketCount senderAddress : Nat)
    (packetData : List Nat) (packetLength : Nat)
    (h : ¬ (packetData.getD 0 0 = E.types.PACKET_TYPE_SET_VOXEL
      ∨ packetData.getD 0 0 = E.types.PACKET_TYPE_SET_VOXEL_DESTRUCTIVE))
    (he : ¬ packetData.getD 0 0 = E.types.PACKET_TYPE_ERASE_VOXEL)
    (hz : ¬ packetData.getD 0 0 = E.types.PACKET_TYPE_Z_COMMAND) :
    processPacket E receivedPacketCount senderAddress packetData packetLength
      = (receivedPacketCount, [Action.printf (Log.unknownPacket (packetData.getD 0 0))]) := by
  simp only [processPacket, if_neg h, if_neg he, if_neg hz]

theorem broadcastCalls_append (xs ys : List Action) :
    broadcastCalls (xs ++ ys) = broadcastCalls xs ++ broadcastCalls ys := by
  simp [broadcastCalls, List.filterMap_append]

theorem broadcastCalls_eq_nil (xs : List Action)
    (h : ∀ a ∈ xs, ∀ p n t, a ≠ Action.broadcastToNodes p n t) : broadcastCalls xs = [] := by
  simp only [broadcastCalls, List.filterMap_eq_nil_iff]
  intro a ha
  cases a <;> first | rfl | exact absurd rfl (h _ ha _ _ _)

theorem markLastHeard_forall (E : Env) (senderAddress : Nat) :
    ∀ a ∈ markLastHeard E senderAddress, ∃ node, a = Action.setLastHeardMicrostamp node := by
  intro a ha
  unfold markLastHeard at ha
  cases hn : E.nodeWithAddress senderAddress <;> simp [hn] at ha
  exact ⟨_, ha⟩

/-- C6: for a packet whose type byte is none of SET_VOXEL,
SET_VOXEL_DESTRUCTIVE, ERASE_VOXEL and Z_COMMAND, `processPacket` returns with the
counter unchanged and a trace that is the single "unknown packet" log line: no
tree mutation, no lock operation, no broadcast, no last-heard update. -/
theorem processPacket_unknown_type_only_logged (E : Env)
    (receivedPacketCount senderAddress : Nat) (packetData : List Nat) (packetLength : Nat)
    (hset : packetData.getD 0 0 ≠ E.types.PACKET_TYPE_SET_VOXEL)
    (hdes : packetData.getD 0 0 ≠ E.types.PACKET_TYPE_SET_VOXEL_DESTRUCTIVE)
    (herase : packetData.getD 0 0 ≠ E.types.PACKET_TYPE_ERASE_VOXEL)
    (hz : packetData.getD 0 0 ≠ E.types.PACKET_TYPE_Z_COMMAND) :
    processPacket E receivedPacketCount senderAddress packetData packetLength
        = (receivedPacketCount, [Action.printf (Log.unknownPacket (packetData.getD 0 0))])
      ∧ (∀ a ∈ (processPacket E receivedPacketCount senderAddress packetData packetLength).2,
          a.mutatesTree = false ∧ a.isLockOp = false ∧ a.isLastHeard = false)
      ∧ broadcastCalls
          (processPacket E receivedPacketCount senderAddress packetData packetLength).2 = [] := by
  have h := processPacket_unknown E receivedPacketCount senderAddress packetData packetLength
    (by rintro (h | h); exacts [hset h, hdes h]) herase hz
  rw [h]
  refine ⟨rfl, ?_, rfl⟩
  intro a ha
  rw [List.mem_singleton.mp ha]
  exact ⟨rfl, rfl, rfl⟩

/-- Witness of C6: a packet of type byte 1. -/
theorem processPacket_unknown_type_only_logged_witness :
    processPacket sampleEnv 5 7 [1, 2, 3] 3
        = (5, [Action.printf (Log.unknownPacket ([1, 2, 3].getD 0 0))])
      ∧ (∀ a ∈ (processPacket sampleEnv 5 7 [1, 2, 3] 3).2,
          a.mutatesTree = false ∧ a.isLockOp = false ∧ a.isLastHeard = false)
      ∧ broadcastCalls (processPacket sampleEnv 5 7 [1, 2, 3] 3).2 = [] :=
  processPacket_unknown_type_only_logged sampleEnv 5 7 [1, 2, 3] 3
    (by decide) (by decide) (by decide) (by decide)

/-- C7: with pairwise different type bytes, `processPacket` makes a broadcast
call exactly when the type byte is Z_COMMAND, and then exactly one, with the
received buffer and the full `packetLength`, addressed to agent peers; for every
other type it makes none; and a Z_COMMAND packet causes no tree mutation. -/
theorem processPacket_broadcasts_only_zCommand (E : Env) (hd : E.types.distinct)
    (receivedPacketCount senderAddress : Nat) (packetData : List Nat) (packetLength : Nat) :
    broadcastCalls (processPacket E receivedPacketCount senderAddress packetData packetLength).2
        = (if packetData.getD 0 0 = E.types.PACKET_TYPE_Z_COMMAND then
            [(packetData, packetLength, [NodeType.NODE_TYPE_AGENT])] else [])
      ∧ (packetData.getD 0 0 = E.types.PACKET_TYPE_Z_COMMAND →
          ∀ a ∈ (processPacket E receivedPacketCount senderAddress packetData packetLength).2,
            a.mutatesTree = false) := by
  simp only [PacketTypes.distinct, List.nodup_cons, List.mem_cons, List.mem_singleton,
    not_or, List.not_mem_nil, not_false_eq_true, List.nodup_nil, and_true] at hd
  obtain ⟨⟨_, _, hsz, _, _⟩, ⟨_, hdz, _, _⟩, ⟨hez, _, _⟩, _⟩ := hd
  by_cases hs : packetData.getD 0 0 = E.types.PACKET_TYPE_SET_VOXEL
      ∨ packetData.getD 0 0 = E.types.PACKET_TYPE_SET_VOXEL_DESTRUCTIVE
  · have hnz : packetData.getD 0 0 ≠ E.types.PACKET_TYPE_Z_COMMAND := by
      rcases hs with h | h <;> rw [h] <;> assumption
    refine ⟨?_, fun h => absurd h hnz⟩
    rw [if_neg hnz, processPacket_set E _ _ _ _ hs, broadcastCalls_append]
    rw [broadcastCalls_eq_nil _ (processPacket_set_init_forall
        (fun a => ∀ p n t, a ≠ Action.broadcastToNodes p n t)
        (fun _ _ _ _ _ h => Action.noConfusion h) (fun _ _ _ _ _ h => Action.noConfusion h)
        E receivedPacketCount packetData packetLength),
      broadcastCalls_eq_nil _ (fun a ha p n t h => by
        obtain ⟨node, hnode⟩ := markLastHeard_forall E senderAddress a ha
        rw [hnode] at h; exact Action.noConfusion h)]
    rfl
  · by_cases he : packetData.getD 0 0 = E.types.PACKET_TYPE_ERASE_VOXEL
    · have hnz : packetData.getD 0 0 ≠ E.types.PACKET_TYPE_Z_COMMAND := by
        rw [he]; assumption
      refine ⟨?_, fun h => absurd h hnz⟩
      rw [if_neg hnz, processPacket_erase E _ _ _ _ hs he, broadcastCalls_append,
        broadcastCalls_eq_nil (markLastHeard E senderAddress) (fun a ha p n t h => by
          obtain ⟨node, hnode⟩ := markLastHeard_forall E senderAddress a ha
          rw [hnode] at h; exact Action.noConfusion h)]
      rfl
    · by_cases hz : packetData.getD 0 0 = E.types.PACKET_TYPE_Z_COMMAND
      · rw [if_pos hz, processPacket_zCommand E _ _ _ _ hs he hz]
        constructor
        · rw [broadcastCalls_append, broadcastCalls_append,
            broadcastCalls_eq_nil _ (fun a ha p n t h => by
              obtain ⟨l, hl, _⟩ := processPacket_zCommand_prints_forall E packetData packetLength a ha
              rw [hl] at h; exact Action.noConfusion h),
            broadcastCalls_eq_nil (markLastHeard E senderAddress) (fun a ha p n t h => by
              obtain ⟨node, hnode⟩ := markLastHeard_forall E senderAddress a ha
              rw [hnode] at h; exact Action.noConfusion h)]
          rfl
        · intro _ a ha
          rcases List.mem_append.mp ha with h | h
          · rcases List.mem_append.mp h with h | h
            · obtain ⟨l, hl, _⟩ := processPacket_zCommand_prints_forall E packetData packetLength a h
              rw [hl]; rfl
            · rw [List.mem_singleton.mp h]; rfl
          · obtain ⟨node, hnode⟩ := markLastHeard_forall E senderAddress a h
            rw [hnode]; rfl
      · refine ⟨?_, fun h => absurd h hz⟩
        rw [if_neg hz, processPacket_unknown E _ _ _ _ hs he hz]
        rfl

/-- Witness of C7: a Z_COMMAND packet with two embedded commands. -/
theorem processPacket_broadcasts_only_zCommand_witness :
    broadcastCalls (processPacket sampleEnv 0 7 [90, 97, 0, 98, 0] 5).2
        = (if [90, 97, 0, 98, 0].getD 0 0 = sampleEnv.types.PACKET_TYPE_Z_COMMAND then
            [([90, 97, 0, 98, 0], 5, [NodeType.NODE_TYPE_AGENT])] else [])
      ∧ ([90, 97, 0, 98, 0].getD 0 0 = sampleEnv.types.PACKET_TYPE_Z_COMMAND →
          ∀ a ∈ (processPacket sampleEnv 0 7 [90, 97, 0, 98, 0] 5).2, a.mutatesTree = false) :=
  processPacket_broadcasts_only_zCommand sampleEnv (by decide) 0 7 [90, 97, 0, 98, 0] 5

/-- C8: for a packet of type SET_VOXEL, SET_VOXEL_DESTRUCTIVE, ERASE_VOXEL or
Z_COMMAND the trace of `processPacket` is a part without any last-heard update
followed by exactly one `setLastHeardMicrostamp` on the peer the registry returns
for the sender address, or by nothing when the registry returns no peer. -/
theorem processPacket_marks_sender_heard_last (E : Env)
    (receivedPacketCount senderAddress : Nat) (packetData : List Nat) (packetLength : Nat)
    (htype : packetData.getD 0 0 = E.types.PACKET_TYPE_SET_VOXEL
      ∨ packetData.getD 0 0 = E.types.PACKET_TYPE_SET_VOXEL_DESTRUCTIVE
      ∨ packetData.getD 0 0 = E.types.PACKET_TYPE_ERASE_VOXEL
      ∨ packetData.getD 0 0 = E.types.PACKET_TYPE_Z_COMMAND) :
    ∃ before : List Action,
      (processPacket E receivedPacketCount senderAddress packetData packetLength).2
          = before ++ (match E.nodeWithAddress senderAddress with
              | some node => [Action.setLastHeardMicrostamp node]
              | none => [])
        ∧ ∀ a ∈ before, a.isLastHeard = false := by
  by_cases hs : packetData.getD 0 0 = E.types.PACKET_TYPE_SET_VOXEL
      ∨ packetData.getD 0 0 = E.types.PACKET_TYPE_SET_VOXEL_DESTRUCTIVE
  · exact ⟨_, processPacket_set E _ _ _ _ hs,
      processPacket_set_init_forall (fun a => a.isLastHeard = false) (fun _ _ => rfl)
        (fun _ _ => rfl) E receivedPacketCount packetData packetLength⟩
  · by_cases he : packetData.getD 0 0 = E.types.PACKET_TYPE_ERASE_VOXEL
    · refine ⟨_, processPacket_erase E _ _ _ _ hs he, ?_⟩
      intro a ha
      simp only [List.mem_cons, List.mem_singleton, List.not_mem_nil, or_false] at ha
      rcases ha with h | h | h <;> rw [h] <;> rfl
    · have hz : packetData.getD 0 0 = E.types.PACKET_TYPE_Z_COMMAND := by
        rcases htype with h | h | h | h
        · exact absurd (Or.inl h) hs
        · exact absurd (Or.inr h) hs
        · exact absurd h he
        · exact h
      refine ⟨_, processPacket_zCommand E _ _ _ _ hs he hz, ?_⟩
      intro a ha
      rcases List.mem_append.mp ha with h | h
      · obtain ⟨l, hl, _⟩ := processPacket_zCommand_prints_forall E packetData packetLength a h
        rw [hl]; rfl
      · rw [List.mem_singleton.mp h]; rfl

/-- Witness of C8: an ERASE_VOXEL packet from a sender the registry knows. -/
theorem processPacket_marks_sender_heard_last_witness :
    ∃ before : List Action,
      (processPacket sampleEnv 0 7 [69, 1, 8] 3).2
          = before ++ (match sampleEnv.nodeWithAddress 7 with
              | some node => [Action.setLastHeardMicrostamp node]
              | none => [])
        ∧ ∀ a ∈ before, a.isLastHeard = false :=
  processPacket_marks_sender_heard_last sampleEnv 0 7 [69, 1, 8] 3 (by decide)

theorem insertAt_found (destructive : Bool) (color : Color) :
    ∀ (path : List (Fin 8)) (t : OctreeNode),
      ∃ n, (t.insertAt destructive color path).nodeAt path = some n
        ∧ (t.insertAt destructive color path).lookup path = (path.length, n)
        ∧ n.color = some color := by
  intro path
  induction path with
  | nil => intro t; exact ⟨_, rfl, rfl, rfl⟩
  | cons i rest ih =>
    intro t
    obtain ⟨n, hat, hlook, hcol⟩ := ih (t.children i).nodeOrCreate
    refine ⟨n, ?_, ?_, hcol⟩
    · simp only [OctreeNode.insertAt, OctreeNode.nodeAt, Function.update_same,
        OctreeNode.toChild]
      exact hat
    · simp only [OctreeNode.insertAt, OctreeNode.lookup, Function.update_same,
        OctreeNode.toChild, List.length_cons]
      rw [hlook]

/-- C10: for every tree, every path no longer than the maximum depth and every
colour, after inserting `(path, color)` in either mode the tree has a node at
exactly `path`, lookup of `path` returns that node at depth `path.length`, and its
colour is `color`. -/
theorem lookup_after_insert (maxDepth : Nat) (destructive : Bool) (t : OctreeNode)
    (path : List (Fin 8)) (color : Color) (hdepth : path.length ≤ maxDepth) :
    ∃ n, (t.insert maxDepth destructive path color).nodeAt path = some n
      ∧ (t.insert maxDepth destructive path color).lookup path = (path.length, n)
      ∧ n.color = some color := by
  unfold OctreeNode.insert
  rw [if_pos hdepth]
  exact insertAt_found destructive color path t

/-- Witness of C10: a destructive insert of path [3, 5] into the empty tree. -/
theorem lookup_after_insert_witness :
    ∃ n, (OctreeNode.createMissing.insert 10 true [3, 5] ⟨255, 0, 0⟩).nodeAt [3, 5] = some n
      ∧ (OctreeNode.createMissing.insert 10 true [3, 5] ⟨255, 0, 0⟩).lookup [3, 5]
        = ([3, 5].length, n)
      ∧ n.color = some ⟨255, 0, 0⟩ :=
  lookup_after_insert 10 true OctreeNode.createMissing [3, 5] ⟨255, 0, 0⟩ (by decide)

/-- C9 fails as stated: a VOXEL_QUERY packet that passes the version check and
whose UUID the registry does not know is handed to no consumer. -/
theorem runReceive_query_unknown_sender_dropped :
    sampleRunEnv.packetVersionMatch [113, 1, 2] = true
      ∧ consumers (runReceive sampleRunEnv true 3 [113, 1, 2] 3) = [] := by
  decide

theorem processPacket_logs_unknown_iff (E : Env) (receivedPacketCount senderAddress : Nat)
    (packetData : List Nat) (packetLength : Nat) :
    Action.printf (Log.unknownPacket (packetData.getD 0 0))
        ∈ (processPacket E receivedPacketCount senderAddress packetData packetLength).2
      ↔ ¬ E.types.isMutation (packetData.getD 0 0) := by
  unfold PacketTypes.isMutation
  by_cases hs : packetData.getD 0 0 = E.types.PACKET_TYPE_SET_VOXEL
      ∨ packetData.getD 0 0 = E.types.PACKET_TYPE_SET_VOXEL_DESTRUCTIVE
  · have hm : packetData.getD 0 0 = E.types.PACKET_TYPE_SET_VOXEL
        ∨ packetData.getD 0 0 = E.types.PACKET_TYPE_SET_VOXEL_DESTRUCTIVE
        ∨ packetData.getD 0 0 = E.types.PACKET_TYPE_ERASE_VOXEL
        ∨ packetData.getD 0 0 = E.types.PACKET_TYPE_Z_COMMAND := by
      rcases hs with h | h
      · exact Or.inl h
      · exact Or.inr (Or.inl h)
    refine ⟨fun hmem => ?_, fun h => absurd hm h⟩
    rw [processPacket_set E _ _ _ _ hs] at hmem
    rcases List.mem_append.mp hmem with h | h
    · exact absurd rfl (processPacket_set_init_forall
        (fun a => a ≠ Action.printf (Log.unknownPacket (packetData.getD 0 0)))
        (fun l hl heq => by
          rw [Action.printf.injEq] at heq
          rw [heq] at hl
          exact Bool.noConfusion hl)
        (fun _ _ heq => Action.noConfusion heq) E receivedPacketCount packetData packetLength _ h)
    · obtain ⟨node, hnode⟩ := markLastHeard_forall E senderAddress _ h
      exact Action.noConfusion hnode
  · by_cases he : packetData.getD 0 0 = E.types.PACKET_TYPE_ERASE_VOXEL
    · refine ⟨fun hmem => ?_, fun h => absurd (Or.inr (Or.inr (Or.inl he))) h⟩
      rw [processPacket_erase E _ _ _ _ hs he] at hmem
      rcases List.mem_append.mp hmem with h | h
      · simp at h
      · obtain ⟨node, hnode⟩ := markLastHeard_forall E senderAddress _ h
        exact Action.noConfusion hnode
    · by_cases hz : packetData.getD 0 0 = E.types.PACKET_TYPE_Z_COMMAND
      · refine ⟨fun hmem => ?_, fun h => absurd (Or.inr (Or.inr (Or.inr hz))) h⟩
        rw [processPacket_zCommand E _ _ _ _ hs he hz] at hmem
        rcases List.mem_append.mp hmem with h | h
        · rcases List.mem_append.mp h with h | h
          · obtain ⟨l, hl, hu⟩ :=
              processPacket_zCommand_prints_forall E packetData packetLength _ h
            rw [Action.printf.injEq] at hl
            rw [← hl] at hu
            exact Bool.noConfusion hu
          · simp at h
        · obtain ⟨node, hnode⟩ := markLastHeard_forall E senderAddress _ h
          exact Action.noConfusion hnode
      · rw [processPacket_unknown E _ _ _ _ hs he hz]
        refine ⟨fun _ h => ?_, fun _ => List.mem_singleton.mpr rfl⟩
        rcases h with h | h | h | h
        · exact hs (Or.inl h)
        · exact hs (Or.inr h)
        · exact he h
        · exact hz h

theorem runReceive_eq (R : RunEnv) (senderAddress : Nat) (packetData : List Nat)
    (packetLength : Nat) (hversion : R.packetVersionMatch packetData = true) :
    runReceive R true senderAddress packetData packetLength
      = if packetData.getD 0 0 = R.types.PACKET_TYPE_VOXEL_QUERY then
          match R.nodeWithUUID ((packetData.drop (R.numBytesForPacketHeader packetData)).take
              NUM_BYTES_RFC4122_UUID) with
          | some node =>
            RunAction.updateNodeWithData node senderAddress packetData packetLength
              :: (match R.linkedData node with
                  | some false => [RunAction.initializeVoxelSendThread node]
                  | _ => [])
          | none => []
        else if packetData.getD 0 0 = R.types.PACKET_TYPE_VOXEL_JURISDICTION_REQUEST then
          [RunAction.jurisdictionSenderQueue senderAddress packetData packetLength]
        else if R.types.isMutation (packetData.getD 0 0) then
          [RunAction.packetProcessorQueue senderAddress packetData packetLength]
        else [RunAction.processNodeData senderAddress packetData packetLength] := by
  have hdec : (decide (packetData.getD 0 0 = R.types.PACKET_TYPE_SET_VOXEL)
        || decide (packetData.getD 0 0 = R.types.PACKET_TYPE_SET_VOXEL_DESTRUCTIVE)
        || decide (packetData.getD 0 0 = R.types.PACKET_TYPE_ERASE_VOXEL)
        || decide (packetData.getD 0 0 = R.types.PACKET_TYPE_Z_COMMAND)) = true
      ↔ R.types.isMutation (packetData.getD 0 0) := by
    simp only [PacketTypes.isMutation, Bool.or_eq_true, decide_eq_true_eq, or_assoc]
  unfold runReceive receiveDispatch
  simp only [hversion, Bool.and_self, if_true, Bool.true_and]
  by_cases hm : R.types.isMutation (packetData.getD 0 0)
  · rw [if_pos (hdec.mpr hm), if_pos hm]
  · rw [if_neg ((not_congr hdec).mpr hm), if_neg hm]

theorem consumers_query_branch (R : RunEnv) (senderAddress : Nat) (packetData : List Nat)
    (packetLength : Nat) (uuid : List Nat) :
    consumers (match R.nodeWithUUID uuid with
      | some node =>
        RunAction.updateNodeWithData node senderAddress packetData packetLength
          :: (match R.linkedData node with
              | some false => [RunAction.initializeVoxelSendThread node]
              | _ => [])
      | none => [])
      = match R.nodeWithUUID uuid with
        | some _ => [Consumer.viewerState]
        | none => [] := by
  cases R.nodeWithUUID uuid with
  | none => rfl
  | some node =>
    dsimp only
    cases R.linkedData node with
    | none => rfl
    | some b => cases b <;> rfl

theorem not_mem_query_branch (R : RunEnv) (senderAddress : Nat) (packetData : List Nat)
    (packetLength : Nat) (uuid : List Nat) (a : RunAction) (ha : a.consumer ≠ none)
    (hv : a.consumer ≠ some Consumer.viewerState) :
    a ∉ (match R.nodeWithUUID uuid with
      | some node =>
        RunAction.updateNodeWithData node senderAddress packetData packetLength
          :: (match R.linkedData node with
              | some false => [RunAction.initializeVoxelSendThread node]
              | _ => [])
      | none => []) := by
  intro hmem
  cases hn : R.nodeWithUUID uuid with
  | none => rw [hn] at hmem; exact List.not_mem_nil _ hmem
  | some node =>
    rw [hn] at hmem
    dsimp only at hmem
    rcases List.mem_cons.mp hmem with h | h
    · rw [h] at hv; exact hv rfl
    · cases hl : R.linkedData node with
      | none => rw [hl] at h; exact List.not_mem_nil _ h
      | some b =>
        rw [hl] at h
        cases b
        · rw [List.mem_singleton.mp h] at ha; exact ha rfl
        · exact List.not_mem_nil _ h

/-- C9 (as amended): in the receive loop of `run`, with pairwise different type
bytes, a received packet that passes the version check and is not a VOXEL_QUERY
is handed to exactly one consumer, chosen by its type byte alone (the
jurisdiction sender for VOXEL_JURISDICTION_REQUEST, the packet processor for the
four mutation types, `processNodeData` otherwise); a VOXEL_QUERY is handed to
`updateNodeWithData` when the registry knows its UUID and to no consumer
otherwise; the packet is queued to the packet processor iff its type is one of
the four mutation types, to the jurisdiction sender iff its type is
VOXEL_JURISDICTION_REQUEST; and the four mutation types are exactly the types
for which `processPacket` does not log "unknown packet". -/
theorem runReceive_hands_packet_by_type (R : RunEnv) (hd : R.types.distinct)
    (senderAddress : Nat) (packetData : List Nat) (packetLength : Nat)
    (hversion : R.packetVersionMatch packetData = true) :
    (packetData.getD 0 0 ≠ R.types.PACKET_TYPE_VOXEL_QUERY →
        consumers (runReceive R true senderAddress packetData packetLength)
          = [if packetData.getD 0 0 = R.types.PACKET_TYPE_VOXEL_JURISDICTION_REQUEST then
              Consumer.jurisdictionSender
            else if R.types.isMutation (packetData.getD 0 0) then Consumer.packetProcessor
            else Consumer.nodeList])
      ∧ (packetData.getD 0 0 = R.types.PACKET_TYPE_VOXEL_QUERY →
        consumers (runReceive R true senderAddress packetData packetLength)
          = match R.nodeWithUUID ((packetData.drop (R.numBytesForPacketHeader packetData)).take
              NUM_BYTES_RFC4122_UUID) with
            | some _ => [Consumer.viewerState]
            | none => [])
      ∧ (RunAction.packetProcessorQueue senderAddress packetData packetLength
            ∈ runReceive R true senderAddress packetData packetLength
          ↔ R.types.isMutation (packetData.getD 0 0))
      ∧ (RunAction.jurisdictionSenderQueue senderAddress packetData packetLength
            ∈ runReceive R true senderAddress packetData packetLength
          ↔ packetData.getD 0 0 = R.types.PACKET_TYPE_VOXEL_JURISDICTION_REQUEST)
      ∧ ∀ (E : Env), E.types = R.types → ∀ (receivedPacketCount sender : Nat),
          (R.types.isMutation (packetData.getD 0 0)
            ↔ Action.printf (Log.unknownPacket (packetData.getD 0 0))
              ∉ (processPacket E receivedPacketCount sender packetData packetLength).2) := by
  simp only [PacketTypes.distinct, List.nodup_cons, List.mem_cons, List.mem_singleton,
    not_or, List.not_mem_nil, not_false_eq_true, List.nodup_nil, and_true] at hd
  obtain ⟨⟨_, _, _, hsq, hsj⟩, ⟨_, _, hdq, hdj⟩, ⟨_, heq, hej⟩, ⟨hzq, hzj⟩, hqj⟩ := hd
  have hmq : R.types.isMutation (packetData.getD 0 0) →
      packetData.getD 0 0 ≠ R.types.PACKET_TYPE_VOXEL_QUERY := by
    rintro (h | h | h | h) <;> rw [h] <;> assumption
  have hmj : R.types.isMutation (packetData.getD 0 0) →
      packetData.getD 0 0 ≠ R.types.PACKET_TYPE_VOXEL_JURISDICTION_REQUEST := by
    rintro (h | h | h | h) <;> rw [h] <;> assumption
  rw [runReceive_eq R senderAddress packetData packetLength hversion]
  refine ⟨?_, ?_, ?_, ?_, ?_⟩
  · intro hq
    rw [if_neg hq]
    by_cases hj : packetData.getD 0 0 = R.types.PACKET_TYPE_VOXEL_JURISDICTION_REQUEST
    · rw [if_pos hj, if_pos hj]; rfl
    · rw [if_neg hj, if_neg hj]
      by_cases hm : R.types.isMutation (packetData.getD 0 0)
      · rw [if_pos hm, if_pos hm]; rfl
      · rw [if_neg hm, if_neg hm]; rfl
  · intro hq
    rw [if_pos hq]
    exact consumers_query_branch R senderAddress packetData packetLength _
  · constructor
    · intro hmem
      by_contra hm
      rw [if_neg hm] at hmem
      by_cases hq : packetData.getD 0 0 = R.types.PACKET_TYPE_VOXEL_QUERY
      · rw [if_pos hq] at hmem
        exact not_mem_query_branch R senderAddress packetData packetLength _ _
          (by simp [RunAction.consumer]) (by simp [RunAction.consumer]) hmem
      · rw [if_neg hq] at hmem
        by_cases hj : packetData.getD 0 0 = R.types.PACKET_TYPE_VOXEL_JURISDICTION_REQUEST
        · rw [if_pos hj] at hmem
          exact RunAction.noConfusion (List.mem_singleton.mp hmem)
        · rw [if_neg hj] at hmem
          exact RunAction.noConfusion (List.mem_singleton.mp hmem)
    · intro hm
      rw [if_neg (hmq hm), if_neg (hmj hm), if_pos hm]
      exact List.mem_singleton.mpr rfl
  · constructor
    · intro hmem
      by_contra hj
      rw [if_neg hj] at hmem
      by_cases hq : packetData.getD 0 0 = R.types.PACKET_TYPE_VOXEL_QUERY
      · rw [if_pos hq] at hmem
        exact not_mem_query_branch R senderAddress packetData packetLength _ _
          (by simp [RunAction.consumer]) (by simp [RunAction.consumer]) hmem
      · rw [if_neg hq] at hmem
        by_cases hm : R.types.isMutation (packetData.getD 0 0)
        · rw [if_pos hm] at hmem
          exact RunAction.noConfusion (List.mem_singleton.mp hmem)
        · rw [if_neg hm] at hmem
          exact RunAction.noConfusion (List.mem_singleton.mp hmem)
    · intro hj
      have hq : packetData.getD 0 0 ≠ R.types.PACKET_TYPE_VOXEL_QUERY := by
        rw [hj]; exact fun h => hqj h.symm
      rw [if_neg hq, if_pos hj]
      exact List.mem_singleton.mpr rfl
  · intro E hE receivedPacketCount sender
    rw [processPacket_logs_unknown_iff, hE, not_not]

/-- Witness of the amended C9: a SET_VOXEL packet. -/
theorem runReceive_hands_packet_by_type_witness :
    ([83, 1, 2].getD 0 0 ≠ sampleRunEnv.types.PACKET_TYPE_VOXEL_QUERY →
        consumers (runReceive sampleRunEnv true 7 [83, 1, 2] 3)
          = [if [83, 1, 2].getD 0 0
                = sampleRunEnv.types.PACKET_TYPE_VOXEL_JURISDICTION_REQUEST then
              Consumer.jurisdictionSender
            else if sampleRunEnv.types.isMutation ([83, 1, 2].getD 0 0) then
              Consumer.packetProcessor
            else Consumer.nodeList])
      ∧ ([83, 1, 2].getD 0 0 = sampleRunEnv.types.PACKET_TYPE_VOXEL_QUERY →
        consumers (runReceive sampleRunEnv true 7 [83, 1, 2] 3)
          = match sampleRunEnv.nodeWithUUID
              (([83, 1, 2].drop (sampleRunEnv.numBytesForPacketHeader [83, 1, 2])).take
                NUM_BYTES_RFC4122_UUID) with
            | some _ => [Consumer.viewerState]
            | none => [])
      ∧ (RunAction.packetProcessorQueue 7 [83, 1, 2] 3
            ∈ runReceive sampleRunEnv true 7 [83, 1, 2] 3
          ↔ sampleRunEnv.types.isMutation ([83, 1, 2].getD 0 0))
      ∧ (RunAction.jurisdictionSenderQueue 7 [83, 1, 2] 3
            ∈ runReceive sampleRunEnv true 7 [83, 1, 2] 3
          ↔ [83, 1, 2].getD 0 0 = sampleRunEnv.types.PACKET_TYPE_VOXEL_JURISDICTION_REQUEST)
      ∧ ∀ (E : Env), E.types = sampleRunEnv.types → ∀ (receivedPacketCount sender : Nat),
          (sampleRunEnv.types.isMutation ([83, 1, 2].getD 0 0)
            ↔ Action.printf (Log.unknownPacket ([83, 1, 2].getD 0 0))
              ∉ (processPacket E receivedPacketCount sender [83, 1, 2] 3).2) :=
  runReceive_hands_packet_by_type sampleRunEnv (by decide) 7 [83, 1, 2] 3 rfl

/-! ## The command loop, and insert and erase on the octree -/

theorem zCommandLoop_eq_range (E : Env) (command : List Nat) (commandLength packetLength : Nat) :
    ∀ (n totalLength : Nat), packetLength + 1 - totalLength = n →
      zCommandLoop E command commandLength packetLength totalLength
        = (List.range ((packetLength + (commandLength + 1) - totalLength) / (commandLength + 1))).map
            (fun k => (totalLength + k * (commandLength + 1),
              strcmpEqual command E.TEST_COMMAND)) := by
  intro n
  induction n using Nat.strong_induction_on with
  | _ n ih =>
    intro totalLength hn
    rw [zCommandLoop]
    by_cases hle : totalLength ≤ packetLength
    · rw [if_pos hle, ih (packetLength + 1 - (totalLength + (commandLength + 1))) (by omega) _ rfl]
      have hdiv : (packetLength + (commandLength + 1) - totalLength) / (commandLength + 1)
          = (packetLength + (commandLength + 1) - (totalLength + (commandLength + 1)))
            / (commandLength + 1) + 1 := by
        have h1 : packetLength + (commandLength + 1) - totalLength
            = (packetLength + (commandLength + 1) - (totalLength + (commandLength + 1)))
              + (commandLength + 1) := by omega
        rw [h1, Nat.add_div_right _ (Nat.succ_pos _)]
      rw [hdiv, List.range_succ_eq_map, List.map_cons, List.map_map]
      congr 1
      · simp
      · apply List.map_congr_left
        intro k _
        simp only [Function.comp_apply, Prod.mk.injEq, and_true]
        rw [Nat.succ_mul]
        omega
    · rw [if_neg hle]
      have hzero : (packetLength + (commandLength + 1) - totalLength) / (commandLength + 1) = 0 :=
        Nat.div_eq_of_lt (by omega)
      rw [hzero]
      rfl

theorem zCommandLoopActions_const (b : Bool) (xs : List Nat) :
    zCommandLoopActions (xs.map (fun x => (x, b)))
      = List.replicate (if b then xs.length else 0) (Action.printf Log.gotTestCommand) := by
  induction xs with
  | nil => cases b <;> rfl
  | cons x xs ih =>
    cases b
    · simp [zCommandLoopActions]
    · simp only [zCommandLoopActions, List.map_cons, List.filterMap_cons, if_true,
        List.length_cons, List.replicate_succ] at ih ⊢
      rw [ih]

/-- C15: for a Z_COMMAND packet with header length `h`, first-command length `c`
(the bytes before the first NUL after the header) and packet length `P`, the
command loop of `processPacket` ends after exactly `(P - h) / (c + 1)` iterations
(zero unless `h + c + 1 ≤ P`); iteration `k` enters with `totalLength = h + (k +
1)(c + 1)` and compares the same string, the one at the header's end, with
`TEST_COMMAND`; and all the loop adds to the run of `processPacket` is one log
line per iteration when that string is `TEST_COMMAND`: the counter
`_receivedPacketCount` is unchanged and the rest of the trace is the log line of
the branch, the one broadcast and the last-heard update. -/
theorem zCommandLoop_rescans_first_command (E : Env) (hd : E.types.distinct)
    (receivedPacketCount senderAddress : Nat) (packetData : List Nat) (packetLength h c : Nat)
    (hz : packetData.getD 0 0 = E.types.PACKET_TYPE_Z_COMMAND)
    (hh : h = E.numBytesForPacketHeader packetData)
    (hc : c = strlen (packetData.drop h)) :
    zCommandLoop E (packetData.drop h) c packetLength (h + c + 1)
        = (List.range ((packetLength - h) / (c + 1))).map
            (fun k => (h + (k + 1) * (c + 1), strcmpEqual (packetData.drop h) E.TEST_COMMAND))
      ∧ (zCommandLoop E (packetData.drop h) c packetLength (h + c + 1)).length
        = (if h + c + 1 ≤ packetLength then (packetLength - h) / (c + 1) else 0)
      ∧ processPacket E receivedPacketCount senderAddress packetData packetLength
        = (receivedPacketCount,
            Action.printf (Log.gotZMessage packetLength ((packetData.drop h).take c))
              :: List.replicate
                  (if strcmpEqual (packetData.drop h) E.TEST_COMMAND then
                    (packetLength - h) / (c + 1) else 0)
                  (Action.printf Log.gotTestCommand)
              ++ [Action.printf Log.rebroadcasting,
                Action.broadcastToNodes packetData packetLength [NodeType.NODE_TYPE_AGENT]]
              ++ markLastHeard E senderAddress) := by
  simp only [PacketTypes.distinct, List.nodup_cons, List.mem_cons, List.mem_singleton,
    not_or, List.not_mem_nil, not_false_eq_true, List.nodup_nil, and_true] at hd
  obtain ⟨⟨_, _, hsz, _, _⟩, ⟨_, hdz, _, _⟩, ⟨hez, _, _⟩, _⟩ := hd
  have hs : ¬ (packetData.getD 0 0 = E.types.PACKET_TYPE_SET_VOXEL
      ∨ packetData.getD 0 0 = E.types.PACKET_TYPE_SET_VOXEL_DESTRUCTIVE) := by
    rw [hz]
    rintro (h1 | h1)
    · exact hsz h1.symm
    · exact hdz h1.symm
  have he : ¬ packetData.getD 0 0 = E.types.PACKET_TYPE_ERASE_VOXEL := by
    rw [hz]
    exact fun h1 => hez h1.symm
  have hloop : zCommandLoop E (packetData.drop h) c packetLength (h + c + 1)
      = (List.range ((packetLength - h) / (c + 1))).map
          (fun k => (h + (k + 1) * (c + 1),
            strcmpEqual (packetData.drop h) E.TEST_COMMAND)) := by
    rw [zCommandLoop_eq_range E _ _ _ _ _ rfl]
    have e1 : packetLength + (c + 1) - (h + c + 1) = packetLength - h := by omega
    rw [e1]
    apply List.map_congr_left
    intro k _
    simp only [Prod.mk.injEq, and_true]
    rw [Nat.succ_mul]
    omega
  refine ⟨hloop, ?_, ?_⟩
  · rw [hloop, List.length_map, List.length_range]
    split_ifs with hle
    · rfl
    · exact Nat.div_eq_of_lt (by omega)
  · have hfst : (processPacket E receivedPacketCount senderAddress packetData packetLength).1
        = receivedPacketCount := by
      simp only [processPacket, if_neg hs, if_neg he, if_pos hz]
    have hsnd := processPacket_zCommand E receivedPacketCount senderAddress packetData
      packetLength hs he hz
    rw [← hh, ← hc, hloop] at hsnd
    have hconst := zCommandLoopActions_const (strcmpEqual (packetData.drop h) E.TEST_COMMAND)
      ((List.range ((packetLength - h) / (c + 1))).map (fun k => h + (k + 1) * (c + 1)))
    rw [List.map_map, List.length_map, List.length_range] at hconst
    rw [show ((fun x => (x, strcmpEqual (packetData.drop h) E.TEST_COMMAND))
        ∘ fun k => h + (k + 1) * (c + 1))
        = (fun k => (h + (k + 1) * (c + 1), strcmpEqual (packetData.drop h) E.TEST_COMMAND))
        from rfl] at hconst
    rw [hconst] at hsnd
    apply Prod.ext
    · exact hfst
    · rw [hsnd]
      simp

theorem nodeAt_cons (i : Fin 8) (rest : List (Fin 8)) (n : OctreeNode) :
    n.nodeAt (i :: rest) = Child.nodeAt rest (n.children i) := by
  unfold OctreeNode.nodeAt
  cases n.children i <;> rfl

theorem nodeAt_nodeOrCreate (path : List (Fin 8)) (hne : path ≠ []) (slot : Child) :
    slot.nodeOrCreate.nodeAt path = Child.nodeAt path slot := by
  cases slot with
  | node color children => rfl
  | empty =>
    cases path with
    | nil => exact absurd rfl hne
    | cons i rest => rfl

theorem nodeAt_append (p q : List (Fin 8)) :
    ∀ t : OctreeNode, t.nodeAt (p ++ q) = (t.nodeAt p).bind (OctreeNode.nodeAt q) := by
  induction p with
  | nil => intro t; rfl
  | cons i rest ih =>
    intro t
    rw [List.cons_append, nodeAt_cons, nodeAt_cons]
    cases t.children i with
    | empty => rfl
    | node color children => exact ih _

theorem insertAt_cons_child (destructive : Bool) (color : Color) (i : Fin 8)
    (rest : List (Fin 8)) (t : OctreeNode) (j : Fin 8) :
    (t.insertAt destructive color (i :: rest)).children j
      = if j = i then
          (OctreeNode.insertAt destructive color rest (t.children i).nodeOrCreate).toChild
        else t.children j := by
  simp only [OctreeNode.insertAt, Function.update_apply]

theorem insertAt_idem (color : Color) :
    ∀ (path : List (Fin 8)) (t : OctreeNode),
      (t.insertAt false color path).insertAt false color path = t.insertAt false color path := by
  intro path
  induction path with
  | nil => intro t; rfl
  | cons i rest ih =>
    intro t
    simp only [OctreeNode.insertAt, Function.update_same, Function.update_idem]
    have h : (OctreeNode.insertAt false color rest (t.children i).nodeOrCreate).toChild.nodeOrCreate
        = OctreeNode.insertAt false color rest (t.children i).nodeOrCreate := rfl
    rw [h, ih]

/-- C12: a second identical non-destructive insert changes nothing: the tree
after `insert` twice is the tree after `insert` once, so the same paths carry a
node and every node has the same colour; this for every path, within the depth
bound (where the walk of section 4.2 runs) or beyond it (where the record is
skipped). -/
theorem insert_idempotent (maxDepth : Nat) (t : OctreeNode) (path : List (Fin 8))
    (color : Color) :
    (t.insert maxDepth false path color).insert maxDepth false path color
        = t.insert maxDepth false path color
      ∧ (∀ q, ((t.insert maxDepth false path color).insert maxDepth false path color).nodeAt q
          = (t.insert maxDepth false path color).nodeAt q)
      ∧ (∀ q, ((t.insert maxDepth false path color).insert maxDepth false path color).colorAt q
          = (t.insert maxDepth false path color).colorAt q)
      ∧ (t.insertAt false color path).insertAt false color path
        = t.insertAt false color path := by
  have h : (t.insert maxDepth false path color).insert maxDepth false path color
      = t.insert maxDepth false path color := by
    unfold OctreeNode.insert
    by_cases hd : path.length ≤ maxDepth
    · simp only [if_pos hd]
      exact insertAt_idem color path t
    · simp only [if_neg hd]
  exact ⟨h, fun q => by rw [h], fun q => by rw [h], insertAt_idem color path t⟩

theorem erase_none_of_nodeAt_none (collapse : Bool) :
    ∀ (path : List (Fin 8)) (slot : Child), Child.nodeAt path slot = none →
      Child.erase collapse path slot = none := by
  intro path
  induction path with
  | nil =>
    intro slot h
    cases slot with
    | empty => rfl
    | node color children => simp [Child.nodeAt, OctreeNode.nodeAt] at h
  | cons i rest ih =>
    intro slot h
    cases slot with
    | empty => rfl
    | node color children =>
      have h2 : Child.nodeAt rest (children i) = none := by
        have h3 := nodeAt_cons i rest { color := color, children := children }
        rw [← h3]
        exact h
      simp only [Child.erase, ih _ h2]

theorem nodeAt_none_of_erase (collapse : Bool) :
    ∀ (path : List (Fin 8)) (slot result : Child), Child.erase collapse path slot = some result →
      Child.nodeAt path result = none := by
  intro path
  induction path with
  | nil =>
    intro slot result h
    cases slot with
    | empty => simp [Child.erase] at h
    | node color children =>
      simp only [Child.erase, Option.some.injEq] at h
      rw [← h]
      rfl
  | cons i rest ih =>
    intro slot result h
    cases slot with
    | empty => simp [Child.erase] at h
    | node color children =>
      simp only [Child.erase] at h
      cases he : Child.erase collapse rest (children i) with
      | none => rw [he] at h; simp at h
      | some inner =>
        rw [he] at h
        simp only at h
        split_ifs at h
        · simp only [Option.some.injEq] at h
          rw [← h]
          rfl
        · simp only [Option.some.injEq] at h
          rw [← h]
          show OctreeNode.nodeAt (i :: rest)
            { color := color, children := Function.update children i inner } = none
          rw [nodeAt_cons]
          simp only [Function.update_same]
          exact ih _ _ he

theorem nodeAt_none_of_erase_none (collapse : Bool) :
    ∀ (path : List (Fin 8)) (slot : Child), Child.erase collapse path slot = none →
      Child.nodeAt path slot = none := by
  intro path
  induction path with
  | nil =>
    intro slot h
    cases slot with
    | empty => rfl
    | node color children => simp [Child.erase] at h
  | cons i rest ih =>
    intro slot h
    cases slot with
    | empty => rfl
    | node color children =>
      show OctreeNode.nodeAt (i :: rest) { color := color, children := children } = none
      rw [nodeAt_cons]
      apply ih
      simp only [Child.erase] at h
      cases he : Child.erase collapse rest (children i) with
      | none => rfl
      | some inner =>
        rw [he] at h
        simp only at h
        split_ifs at h

/-- C13: erasing a path at which the tree has no node returns the tree unchanged
(erase has no error result); erasing the same path twice gives the tree that
erasing it once gives; and after erasing a path below the root the tree has no
node there.  Holds with and without collapse-on-empty. -/
theorem erase_absent_is_noop (collapse : Bool) (t : OctreeNode) (path : List (Fin 8)) :
    (t.nodeAt path = none → t.erase collapse path = t)
      ∧ (t.erase collapse path).erase collapse path = t.erase collapse path
      ∧ (path ≠ [] → (t.erase collapse path).nodeAt path = none) := by
  cases path with
  | nil => exact ⟨fun _ => rfl, rfl, fun h => absurd rfl h⟩
  | cons i rest =>
    have hnoop : ∀ u : OctreeNode, u.nodeAt (i :: rest) = none →
        u.erase collapse (i :: rest) = u := by
      intro u hu
      rw [nodeAt_cons] at hu
      simp only [OctreeNode.erase, erase_none_of_nodeAt_none collapse rest _ hu]
    have hgone : (t.erase collapse (i :: rest)).nodeAt (i :: rest) = none := by
      cases he : Child.erase collapse rest (t.children i) with
      | none =>
        have hsame : t.erase collapse (i :: rest) = t := by simp only [OctreeNode.erase, he]
        rw [hsame, nodeAt_cons]
        exact nodeAt_none_of_erase_none collapse rest _ he
      | some slot =>
        have hnew : t.erase collapse (i :: rest)
            = { color := t.color, children := Function.update t.children i slot } := by
          simp only [OctreeNode.erase, he]
        rw [hnew, nodeAt_cons]
        simp only [Function.update_same]
        exact nodeAt_none_of_erase collapse rest _ _ he
    exact ⟨hnoop t, hnoop _ hgone, fun _ => hgone⟩

theorem insertAt_nodeAt_self (destructive : Bool) (color : Color) :
    ∀ (path : List (Fin 8)) (t : OctreeNode),
      ∃ n, (t.insertAt destructive color path).nodeAt path = some n
        ∧ n.color = some color
        ∧ (destructive = true → ∀ i, n.children i = Child.empty) := by
  intro path
  induction path with
  | nil =>
    intro t
    refine ⟨_, rfl, rfl, ?_⟩
    intro hd i
    simp only [OctreeNode.insertAt, hd, if_true]
  | cons i rest ih =>
    intro t
    obtain ⟨n, hn, hc, hch⟩ := ih (t.children i).nodeOrCreate
    refine ⟨n, ?_, hc, hch⟩
    rw [nodeAt_cons, insertAt_cons_child, if_pos rfl]
    exact hn

theorem insertAt_keeps_below (color : Color) :
    ∀ (path q : List (Fin 8)) (t : OctreeNode), q ≠ [] →
      (t.insertAt false color path).nodeAt (path ++ q) = t.nodeAt (path ++ q) := by
  intro path
  induction path with
  | nil =>
    intro q t hq
    cases q with
    | nil => exact absurd rfl hq
    | cons j q' =>
      rw [List.nil_append, nodeAt_cons, nodeAt_cons]
      rfl
  | cons i rest ih =>
    intro q t hq
    rw [List.cons_append, nodeAt_cons, nodeAt_cons, insertAt_cons_child, if_pos rfl]
    show (OctreeNode.insertAt false color rest (t.children i).nodeOrCreate).nodeAt (rest ++ q)
      = Child.nodeAt (rest ++ q) (t.children i)
    rw [ih q _ hq]
    exact nodeAt_nodeOrCreate _ (by simp [hq]) _

theorem insertAt_off_path (destructive : Bool) (color : Color) :
    ∀ (path q : List (Fin 8)) (t : OctreeNode), ¬ q <+: path → ¬ path <+: q →
      (t.insertAt destructive color path).nodeAt q = t.nodeAt q := by
  intro path
  induction path with
  | nil => intro q t _ h; exact absurd (List.nil_prefix) h
  | cons i rest ih =>
    intro q t h1 h2
    cases q with
    | nil => exact absurd (List.nil_prefix) h1
    | cons j q' =>
      rw [nodeAt_cons, nodeAt_cons, insertAt_cons_child]
      by_cases hji : j = i
      · subst hji
        rw [if_pos rfl]
        have h1' : ¬ q' <+: rest := fun h => h1 ((List.prefix_cons_inj j).mpr h)
        have h2' : ¬ rest <+: q' := fun h => h2 ((List.prefix_cons_inj j).mpr h)
        show (OctreeNode.insertAt destructive color rest (t.children j).nodeOrCreate).nodeAt q'
          = Child.nodeAt q' (t.children j)
        rw [ih q' _ h1' h2']
        exact nodeAt_nodeOrCreate _ (fun h => h1' (by rw [h]; exact List.nil_prefix)) _
      · rw [if_neg hji]

theorem insertAt_keeps_ancestor_color (destructive : Bool) (color : Color) :
    ∀ (path q : List (Fin 8)) (t n : OctreeNode), q <+: path → q ≠ path →
      t.nodeAt q = some n →
      ∃ m, (t.insertAt destructive color path).nodeAt q = some m ∧ m.color = n.color := by
  intro path
  induction path with
  | nil =>
    intro q t n h1 h2 _
    exact absurd (List.prefix_nil.mp h1) h2
  | cons i rest ih =>
    intro q t n h1 h2 hn
    cases q with
    | nil =>
      simp only [OctreeNode.nodeAt, Option.some.injEq] at hn
      exact ⟨_, rfl, by rw [← hn]; rfl⟩
    | cons j q' =>
      have hji : j = i := (List.cons_prefix_cons.mp h1).1
      subst hji
      have h1' : q' <+: rest := (List.cons_prefix_cons.mp h1).2
      have h2' : q' ≠ rest := fun h => h2 (by rw [h])
      rw [nodeAt_cons] at hn
      rw [nodeAt_cons, insertAt_cons_child, if_pos rfl]
      cases hs : t.children j with
      | empty => rw [hs] at hn; simp [Child.nodeAt] at hn
      | node col ch =>
        rw [hs] at hn
        exact ih q' _ n h1' h2' hn

theorem insert_eq_insertAt (maxDepth : Nat) (destructive : Bool) (t : OctreeNode)
    (path : List (Fin 8)) (color : Color) (h : path.length ≤ maxDepth) :
    t.insert maxDepth destructive path color = t.insertAt destructive color path := by
  unfold OctreeNode.insert
  rw [if_pos h]

/-- C11: after a destructive insert of `(p, c)` the node at `p` has colour `c`
and no children, and the tree has no node strictly below `p`; after a
non-destructive insert every path strictly below `p` carries the node it carried
before, with its colour and children; in both modes a path that is neither on the
way to `p` nor below it carries the node it carried before, and an ancestor of `p`
that existed keeps its colour.  `insert` is this walk for every path within the
depth bound.  Scenario: non-destructive insert of [3,5] red, then destructive
insert of [3] green, gives lookup [3,5] red at depth 2 before, and after it
lookup [3] green at depth 1 and lookup [3,5] stopping at depth 1. -/
theorem insertAt_descendants (t : OctreeNode) (p : List (Fin 8)) (c : Color) :
    (∃ n, (t.insertAt true c p).nodeAt p = some n ∧ n.color = some c
        ∧ ∀ i, n.children i = Child.empty)
      ∧ (∀ q, q ≠ [] → (t.insertAt true c p).nodeAt (p ++ q) = none)
      ∧ (∀ q, q ≠ [] → (t.insertAt false c p).nodeAt (p ++ q) = t.nodeAt (p ++ q))
      ∧ (∀ d q, ¬ q <+: p → ¬ p <+: q → (t.insertAt d c p).nodeAt q = t.nodeAt q)
      ∧ (∀ d q n, q <+: p → q ≠ p → t.nodeAt q = some n →
          ∃ m, (t.insertAt d c p).nodeAt q = some m ∧ m.color = n.color)
      ∧ (∀ maxDepth d, p.length ≤ maxDepth → t.insert maxDepth d p c = t.insertAt d c p)
      ∧ (∀ maxDepth, 2 ≤ maxDepth →
          ((OctreeNode.createMissing.insert maxDepth false [3, 5] ⟨255, 0, 0⟩).lookup [3, 5]).1 = 2
          ∧ ((OctreeNode.createMissing.insert maxDepth false [3, 5] ⟨255, 0, 0⟩).lookup [3, 5]).2.color
            = some ⟨255, 0, 0⟩
          ∧ (((OctreeNode.createMissing.insert maxDepth false [3, 5] ⟨255, 0, 0⟩).insert
              maxDepth true [3] ⟨0, 255, 0⟩).lookup [3]).1 = 1
          ∧ (((OctreeNode.createMissing.insert maxDepth false [3, 5] ⟨255, 0, 0⟩).insert
              maxDepth true [3] ⟨0, 255, 0⟩).lookup [3]).2.color = some ⟨0, 255, 0⟩
          ∧ (((OctreeNode.createMissing.insert maxDepth false [3, 5] ⟨255, 0, 0⟩).insert
              maxDepth true [3] ⟨0, 255, 0⟩).lookup [3, 5]).1 = 1) := by
  obtain ⟨n, hn, hc, hch⟩ := insertAt_nodeAt_self true c p t
  refine ⟨⟨n, hn, hc, hch rfl⟩, ?_, fun q hq => insertAt_keeps_below c p q t hq,
    fun d q h1 h2 => insertAt_off_path d c p q t h1 h2,
    fun d q m h1 h2 h3 => insertAt_keeps_ancestor_color d c p q t m h1 h2 h3,
    fun maxDepth d h => insert_eq_insertAt maxDepth d t p c h, ?_⟩
  · intro q hq
    rw [nodeAt_append, hn]
    cases q with
    | nil => exact absurd rfl hq
    | cons j q' =>
      show n.nodeAt (j :: q') = none
      rw [nodeAt_cons, hch rfl j]
      rfl
  · intro maxDepth h2
    rw [insert_eq_insertAt maxDepth false _ [3, 5] _ h2,
      insert_eq_insertAt maxDepth true _ [3] _ (by simp only [List.length_singleton]; omega)]
    decide

/-- Witness of C11: the tree holding [3,5] red, and an insert at [3]. -/
theorem insertAt_descendants_witness :
    ((OctreeNode.createMissing.insertAt false ⟨255, 0, 0⟩ [3, 5]).insertAt true ⟨0, 255, 0⟩
        [3]).nodeAt ([3] ++ [5]) = none
      ∧ ((OctreeNode.createMissing.insertAt false ⟨255, 0, 0⟩ [3, 5]).insertAt false ⟨0, 255, 0⟩
        [3]).nodeAt ([3] ++ [5])
        = (OctreeNode.createMissing.insertAt false ⟨255, 0, 0⟩ [3, 5]).nodeAt ([3] ++ [5])
      ∧ ((OctreeNode.createMissing.insertAt false ⟨255, 0, 0⟩ [3, 5]).insertAt true ⟨0, 255, 0⟩
        [3]).nodeAt [4]
        = (OctreeNode.createMissing.insertAt false ⟨255, 0, 0⟩ [3, 5]).nodeAt [4]
      ∧ (OctreeNode.createMissing.insertAt false ⟨255, 0, 0⟩ [3, 5]).insert 2 true [3]
          ⟨0, 255, 0⟩
        = (OctreeNode.createMissing.insertAt false ⟨255, 0, 0⟩ [3, 5]).insertAt true
          ⟨0, 255, 0⟩ [3] :=
  ⟨(insertAt_descendants (OctreeNode.createMissing.insertAt false ⟨255, 0, 0⟩ [3, 5]) [3]
      ⟨0, 255, 0⟩).2.1 [5] (by decide),
    (insertAt_descendants (OctreeNode.createMissing.insertAt false ⟨255, 0, 0⟩ [3, 5]) [3]
      ⟨0, 255, 0⟩).2.2.1 [5] (by decide),
    (insertAt_descendants (OctreeNode.createMissing.insertAt false ⟨255, 0, 0⟩ [3, 5]) [3]
      ⟨0, 255, 0⟩).2.2.2.1 true [4] (by decide) (by decide),
    (insertAt_descendants (OctreeNode.createMissing.insertAt false ⟨255, 0, 0⟩ [3, 5]) [3]
      ⟨0, 255, 0⟩).2.2.2.2.2.1 2 true (by decide)⟩

/-- Witness of C13: erasing [3,4] from the tree holding [3,5] red. -/
theorem erase_absent_is_noop_witness :
    (OctreeNode.createMissing.insertAt false ⟨255, 0, 0⟩ [3, 5]).nodeAt [3, 4] = none
      ∧ (OctreeNode.createMissing.insertAt false ⟨255, 0, 0⟩ [3, 5]).erase true [3, 4]
        = OctreeNode.createMissing.insertAt false ⟨255, 0, 0⟩ [3, 5]
      ∧ ((OctreeNode.createMissing.insertAt false ⟨255, 0, 0⟩ [3, 5]).erase true
        [3, 4]).nodeAt [3, 4] = none :=
  ⟨rfl,
    (erase_absent_is_noop true (OctreeNode.createMissing.insertAt false ⟨255, 0, 0⟩ [3, 5])
      [3, 4]).1 rfl,
    (erase_absent_is_noop true (OctreeNode.createMissing.insertAt false ⟨255, 0, 0⟩ [3, 5])
      [3, 4]).2.2 (by decide)⟩

/-- Witness of C15: a Z_COMMAND packet of five bytes, one header byte, first
command of length one: two iterations. -/
theorem zCommandLoop_rescans_first_command_witness :
    zCommandLoop sampleEnv ([90, 97, 0, 98, 0].drop 1) 1 5 (1 + 1 + 1)
        = (List.range ((5 - 1) / (1 + 1))).map
            (fun k => (1 + (k + 1) * (1 + 1),
              strcmpEqual ([90, 97, 0, 98, 0].drop 1) sampleEnv.TEST_COMMAND))
      ∧ (zCommandLoop sampleEnv ([90, 97, 0, 98, 0].drop 1) 1 5 (1 + 1 + 1)).length
        = (if 1 + 1 + 1 ≤ 5 then (5 - 1) / (1 + 1) else 0)
      ∧ processPacket sampleEnv 0 7 [90, 97, 0, 98, 0] 5
        = (0,
            Action.printf (Log.gotZMessage 5 (([90, 97, 0, 98, 0].drop 1).take 1))
              :: List.replicate
                  (if strcmpEqual ([90, 97, 0, 98, 0].drop 1) sampleEnv.TEST_COMMAND then
                    (5 - 1) / (1 + 1) else 0)
                  (Action.printf Log.gotTestCommand)
              ++ [Action.printf Log.rebroadcasting,
                Action.broadcastToNodes [90, 97, 0, 98, 0] 5 [NodeType.NODE_TYPE_AGENT]]
              ++ markLastHeard sampleEnv 7) :=
  zCommandLoop_rescans_first_command sampleEnv (by decide) 0 7 [90, 97, 0, 98, 0] 5 1 1
    (by decide) rfl (by decide)

/-! ## Round trip through the spatial codec -/

theorem segmentOfBits_segmentBits (s : Fin 8) :
    (Fin.ofNat (4 * (s.val / 4 % 2 == 1).toNat + 2 * (s.val / 2 % 2 == 1).toNat
      + (s.val % 2 == 1).toNat) : Fin 8) = s := by
  revert s
  decide

theorem bitsOfByte_of_bools (b0 b1 b2 b3 b4 b5 b6 b7 : Bool) :
    bitsOfByte (128 * b0.toNat + 64 * b1.toNat + 32 * b2.toNat + 16 * b3.toNat
      + 8 * b4.toNat + 4 * b5.toNat + 2 * b6.toNat + b7.toNat)
      = [b0, b1, b2, b3, b4, b5, b6, b7] := by
  cases b0 <;> cases b1 <;> cases b2 <;> cases b3 <;> cases b4 <;> cases b5 <;> cases b6 <;>
    cases b7 <;> rfl

theorem bitsOfByte_byteOfBits (bits : List Bool) :
    bitsOfByte (byteOfBits bits) = (List.range 8).map (fun k => bits.getD k false) := by
  unfold byteOfBits
  rw [bitsOfByte_of_bools]
  rfl

theorem byteOfBits_lt (bits : List Bool) : byteOfBits bits < 256 := by
  unfold byteOfBits
  have h : ∀ b : Bool, b.toNat ≤ 1 := fun b => by cases b <;> simp
  have h0 := h (bits.getD 0 false)
  have h1 := h (bits.getD 1 false)
  have h2 := h (bits.getD 2 false)
  have h3 := h (bits.getD 3 false)
  have h4 := h (bits.getD 4 false)
  have h5 := h (bits.getD 5 false)
  have h6 := h (bits.getD 6 false)
  have h7 := h (bits.getD 7 false)
  omega

theorem getD_drop (bits : List Bool) (n k : Nat) :
    (bits.drop n).getD k false = bits.getD (n + k) false := by
  simp [List.getD_eq_getElem?_getD, List.getElem?_drop]

theorem packBits_bits (n : Nat) :
    ∀ bits : List Bool, (packBits n bits).flatMap bitsOfByte
      = (List.range (8 * n)).map (fun k => bits.getD k false) := by
  induction n with
  | zero => intro bits; rfl
  | succ n ih =>
    intro bits
    rw [packBits, List.flatMap_cons, bitsOfByte_byteOfBits, ih,
      show 8 * (n + 1) = 8 + 8 * n from by ring, List.range_add, List.map_append, List.map_map]
    congr 1
    apply List.map_congr_left
    intro k _
    simp only [Function.comp_apply]
    exact getD_drop bits 8 k

theorem packBits_length (n : Nat) : ∀ bits : List Bool, (packBits n bits).length = n := by
  induction n with
  | zero => intro bits; rfl
  | succ n ih => intro bits; simp [packBits, ih]

theorem packBits_lt (n : Nat) : ∀ (bits : List Bool), ∀ b ∈ packBits n bits, b < 256 := by
  induction n with
  | zero => intro bits b hb; simp [packBits] at hb
  | succ n ih =>
    intro bits b hb
    rw [packBits, List.mem_cons] at hb
    rcases hb with h | h
    · rw [h]; exact byteOfBits_lt bits
    · exact ih _ b h

theorem unpackSegments_of_agree :
    ∀ (path : List (Fin 8)) (bits : List Bool),
      (∀ k, k < 3 * path.length →
        bits.getD k false = (path.flatMap segmentBits).getD k false) →
      unpackSegments path.length bits = path := by
  intro path
  induction path with
  | nil => intro bits _; rfl
  | cons s rest ih =>
    intro bits h
    rw [List.length_cons, unpackSegments]
    have hlen : 3 * (s :: rest).length = 3 * rest.length + 3 := by
      rw [List.length_cons]; ring
    have hseg : segmentOfBits bits = s := by
      have h0 := h 0 (by omega)
      have h1 := h 1 (by omega)
      have h2 := h 2 (by omega)
      rw [List.flatMap_cons] at h0 h1 h2
      unfold segmentOfBits
      rw [h0, h1, h2]
      simp only [segmentBits, List.cons_append, List.getD_cons_zero, List.getD_cons_succ]
      exact segmentOfBits_segmentBits s
    rw [hseg, ih (bits.drop 3)]
    intro k hk
    rw [getD_drop, h (3 + k) (by omega), List.flatMap_cons]
    show ((segmentBits s) ++ _).getD (3 + k) false = _
    rw [List.getD_append_right _ _ _ _ (by simp [segmentBits])]
    simp [segmentBits]

theorem unpack_pack (path : List (Fin 8)) :
    unpackSegments path.length
        ((packBits (bytesRequiredForCodeLength path.length)
          (path.flatMap segmentBits)).flatMap bitsOfByte)
      = path := by
  apply unpackSegments_of_agree
  intro k hk
  rw [packBits_bits]
  have hk8 : k < 8 * bytesRequiredForCodeLength path.length := by
    unfold bytesRequiredForCodeLength
    omega
  simp only [List.getD_eq_getElem?_getD, List.getElem?_map, List.getElem?_range hk8,
    Option.map_some', Option.getD_some]
theorem ofNat_val (x : Fin 256) : (Fin.ofNat x.val : Fin 256) = x := by
  apply Fin.ext
  show x.val % 256 = x.val
  exact Nat.mod_eq_of_lt x.isLt

theorem decodeRecord_encode (path : List (Fin 8)) (color : Color) (rest : List Nat) :
    decodeRecord path.length
        (packBits (bytesRequiredForCodeLength path.length) (path.flatMap segmentBits)
          ++ ([color.red.val, color.green.val, color.blue.val] ++ rest))
      = (path, color) := by
  have hlen := packBits_length (bytesRequiredForCodeLength path.length)
    (path.flatMap segmentBits)
  unfold decodeRecord
  have htake : (packBits (bytesRequiredForCodeLength path.length) (path.flatMap segmentBits)
      ++ ([color.red.val, color.green.val, color.blue.val] ++ rest)).take
        (bytesRequiredForCodeLength path.length)
      = packBits (bytesRequiredForCodeLength path.length) (path.flatMap segmentBits) := by
    rw [List.take_append_of_le_length (by omega), List.take_of_length_le (by omega)]
  rw [htake, unpack_pack]
  have hget : ∀ k, (packBits (bytesRequiredForCodeLength path.length)
      (path.flatMap segmentBits)
      ++ ([color.red.val, color.green.val, color.blue.val] ++ rest)).getD
        (bytesRequiredForCodeLength path.length + k) 0
      = ([color.red.val, color.green.val, color.blue.val] ++ rest).getD k 0 := by
    intro k
    rw [List.getD_append_right _ _ _ _ (by omega)]
    congr 1
    omega
  have h0 := hget 0
  rw [Nat.add_zero] at h0
  rw [h0, hget 1, hget 2]
  simp only [List.cons_append, List.getD_cons_zero, List.getD_cons_succ, ofNat_val]

theorem decodeStream_encodeRecord (record : List (Fin 8) × Color) (rest : List Nat)
    (hlen : record.1.length ≤ 255) :
    decodeStream (encodeRecord record ++ rest)
      = (record :: (decodeStream rest).1, (decodeStream rest).2) := by
  obtain ⟨path, color⟩ := record
  have hmod : path.length % 256 = path.length := Nat.mod_eq_of_lt (by simp at hlen; omega)
  have hplen := packBits_length (bytesRequiredForCodeLength path.length)
    (path.flatMap segmentBits)
  have hshape : encodeRecord (path, color) ++ rest
      = path.length :: (packBits (bytesRequiredForCodeLength path.length)
          (path.flatMap segmentBits)
          ++ ([color.red.val, color.green.val, color.blue.val] ++ rest)) := by
    simp only [encodeRecord, encodeOctalCode, hmod, List.cons_append, List.append_assoc]
  rw [hshape, decodeStream]
  have hnot : ¬ (packBits (bytesRequiredForCodeLength path.length) (path.flatMap segmentBits)
      ++ ([color.red.val, color.green.val, color.blue.val] ++ rest)).length
        < bytesRequiredForCodeLength path.length + 3 := by
    simp only [List.length_append, List.length_cons, hplen]
    omega
  have hdrop : (packBits (bytesRequiredForCodeLength path.length) (path.flatMap segmentBits)
      ++ ([color.red.val, color.green.val, color.blue.val] ++ rest)).drop
        (bytesRequiredForCodeLength path.length + 3) = rest := by
    rw [List.drop_append_eq_append_drop, List.drop_of_length_le (by omega), hplen]
    simp
  rw [if_neg hnot, hdrop, decodeRecord_encode]

theorem decodeStream_encode (records : List (List (Fin 8) × Color))
    (hlen : ∀ r ∈ records, r.1.length ≤ 255) :
    decodeStream (records.flatMap encodeRecord) = (records, false) := by
  induction records with
  | nil => rw [List.flatMap_nil, decodeStream]
  | cons r rs ih =>
    rw [List.flatMap_cons, decodeStream_encodeRecord r _ (hlen r (List.mem_cons_self r rs)),
      ih (fun x hx => hlen x (List.mem_cons_of_mem r hx))]

theorem encodeRecord_lt (record : List (Fin 8) × Color) : ∀ b ∈ encodeRecord record, b < 256 := by
  intro b hb
  simp only [encodeRecord, encodeOctalCode, List.cons_append, List.mem_cons, List.mem_append,
    List.mem_singleton, List.not_mem_nil, or_false] at hb
  rcases hb with h | h | h | h | h
  · rw [h]; exact Nat.mod_lt _ (by norm_num)
  · exact packBits_lt _ _ b h
  · rw [h]; exact record.2.red.isLt
  · rw [h]; exact record.2.green.isLt
  · rw [h]; exact record.2.blue.isLt
theorem records_succ_node (levels : Nat) (color : Option Color) (children : Fin 8 → Child) :
    Child.records (levels + 1) (Child.node color children)
      = (match color with
          | some c => [([], c)]
          | none => [])
        ++ (List.finRange 8).flatMap
          (fun i => (Child.records levels (children i)).map (fun r => (i :: r.1, r.2))) := by
  simp only [Child.records]

theorem records_length_lt :
    ∀ (levels : Nat) (slot : Child), ∀ r ∈ Child.records levels slot, r.1.length < levels := by
  intro levels
  induction levels with
  | zero =>
    intro slot r hr
    cases slot <;> simp [Child.records] at hr
  | succ n ih =>
    intro slot r hr
    cases slot with
    | empty => simp [Child.records] at hr
    | node color children =>
      rw [records_succ_node, List.mem_append] at hr
      rcases hr with h | h
      · cases color with
        | none => simp at h
        | some c =>
          simp only [List.mem_singleton] at h
          rw [h]
          exact Nat.succ_pos n
      · obtain ⟨i, _, hi⟩ := List.mem_flatMap.mp h
        obtain ⟨r', hr', hrr⟩ := List.mem_map.mp hi
        rw [← hrr]
        exact Nat.succ_lt_succ (ih _ r' hr')

theorem mem_records_iff :
    ∀ (levels : Nat) (slot : Child), slot.fitsDepth levels = true →
      ∀ (q : List (Fin 8)) (c : Color),
        (q, c) ∈ Child.records levels slot
          ↔ (Child.nodeAt q slot).bind OctreeNode.color = some c := by
  intro levels
  induction levels with
  | zero =>
    intro slot hfit q c
    cases slot with
    | empty => simp [Child.records, Child.nodeAt]
    | node color children => simp [Child.fitsDepth] at hfit
  | succ n ih =>
    intro slot hfit q c
    cases slot with
    | empty => simp [Child.records, Child.nodeAt]
    | node color children =>
      simp only [Child.fitsDepth, List.all_eq_true, List.mem_finRange, true_implies] at hfit
      rw [records_succ_node, List.mem_append]
      cases q with
      | nil =>
        have hright : ¬ (([] : List (Fin 8)), c) ∈ (List.finRange 8).flatMap
            (fun i => (Child.records n (children i)).map (fun r => (i :: r.1, r.2))) := by
          intro h
          obtain ⟨i, _, hi⟩ := List.mem_flatMap.mp h
          obtain ⟨r', _, hrr⟩ := List.mem_map.mp hi
          simp at hrr
        show _ ↔ color = some c
        cases color with
        | none => simp [hright]
        | some c' =>
          simp only [List.mem_singleton, Prod.mk.injEq, true_and, hright, or_false,
            Option.some.injEq]
          exact eq_comm
      | cons j q' =>
        have hleft : ¬ ((j :: q', c) ∈ (match color with
            | some c => [(([] : List (Fin 8)), c)]
            | none => [])) := by
          cases color <;> simp
        have hnode : Child.nodeAt (j :: q') (Child.node color children)
            = Child.nodeAt q' (children j) :=
          nodeAt_cons j q' { color := color, children := children }
        rw [hnode, ← ih (children j) (hfit j) q' c]
        constructor
        · rintro (h | h)
          · exact absurd h hleft
          · obtain ⟨i, _, hi⟩ := List.mem_flatMap.mp h
            obtain ⟨r', hr', hrr⟩ := List.mem_map.mp hi
            simp only [Prod.mk.injEq, List.cons.injEq] at hrr
            obtain ⟨⟨hij, hq⟩, hc⟩ := hrr
            subst hij
            have : r' = (q', c) := Prod.ext hq hc
            rw [← this]
            exact hr'
        · intro h
          exact Or.inr (List.mem_flatMap.mpr ⟨j, List.mem_finRange j,
            List.mem_map.mpr ⟨(q', c), h, rfl⟩⟩)

theorem records_sorted :
    ∀ (levels : Nat) (slot : Child),
      ((Child.records levels slot).map Prod.fst).Pairwise
        (List.Lex (fun i j : Fin 8 => i < j)) := by
  intro levels
  induction levels with
  | zero =>
    intro slot
    cases slot <;> simp [Child.records]
  | succ n ih =>
    intro slot
    cases slot with
    | empty => simp [Child.records]
    | node color children =>
      rw [records_succ_node, List.map_append, List.pairwise_append]
      refine ⟨?_, ?_, ?_⟩
      · cases color <;> simp
      · rw [List.pairwise_map, List.pairwise_flatMap]
        constructor
        · intro i _
          rw [List.pairwise_map]
          have hi := ih (children i)
          rw [List.pairwise_map] at hi
          exact hi.imp (fun h => List.Lex.cons h)
        · exact (List.pairwise_lt_finRange 8).imp (fun {i j} hij x hx y hy => by
            obtain ⟨x', _, hx'⟩ := List.mem_map.mp hx
            obtain ⟨y', _, hy'⟩ := List.mem_map.mp hy
            rw [← hx', ← hy']
            exact List.Lex.rel hij)
      · intro p hp q hq
        have hp' : p = [] := by
          cases color with
          | none => simp at hp
          | some c => simpa using hp
        obtain ⟨r, hr, hrq⟩ := List.mem_map.mp hq
        obtain ⟨i, _, hi⟩ := List.mem_flatMap.mp hr
        obtain ⟨r', _, hrr⟩ := List.mem_map.mp hi
        rw [hp', ← hrq, ← hrr]
        exact List.Lex.nil
theorem colorAt_cons (i : Fin 8) (rest : List (Fin 8)) (t : OctreeNode) :
    t.colorAt (i :: rest) = (Child.nodeAt rest (t.children i)).bind OctreeNode.color := by
  unfold OctreeNode.colorAt
  rw [nodeAt_cons]

theorem colorAt_nodeOrCreate (path : List (Fin 8)) (slot : Child) :
    slot.nodeOrCreate.colorAt path = (Child.nodeAt path slot).bind OctreeNode.color := by
  cases slot with
  | node color children => rfl
  | empty =>
    cases path with
    | nil => rfl
    | cons i rest => rfl

theorem colorAt_createMissing (path : List (Fin 8)) :
    OctreeNode.createMissing.colorAt path = none :=
  colorAt_nodeOrCreate path Child.empty

theorem colorAt_insertAt (color : Color) :
    ∀ (path q : List (Fin 8)) (t : OctreeNode),
      (t.insertAt false color path).colorAt q
        = if q = path then some color else t.colorAt q := by
  intro path
  induction path with
  | nil =>
    intro q t
    cases q with
    | nil => rfl
    | cons j q' =>
      rw [if_neg (by simp), colorAt_cons, colorAt_cons]
      rfl
  | cons i rest ih =>
    intro q t
    cases q with
    | nil =>
      rw [if_neg (by simp)]
      rfl
    | cons j q' =>
      rw [colorAt_cons, colorAt_cons, insertAt_cons_child]
      by_cases hji : j = i
      · subst hji
        rw [if_pos rfl]
        show (OctreeNode.insertAt false color rest (t.children j).nodeOrCreate).colorAt q' = _
        rw [ih q' _, colorAt_nodeOrCreate]
        by_cases hq : q' = rest
        · rw [if_pos hq, if_pos (by rw [hq])]
        · rw [if_neg hq, if_neg (by simpa using hq)]
      · rw [if_neg hji, if_neg (by simp [hji])]

theorem colorAt_loadRecords (treeMaxDepth : Nat) :
    ∀ (records : List (List (Fin 8) × Color)) (t : OctreeNode),
      (∀ r ∈ records, r.1.length ≤ treeMaxDepth) →
      (records.map Prod.fst).Nodup →
      ∀ q : List (Fin 8),
        (∀ c, (q, c) ∈ records → (loadRecords treeMaxDepth records t).colorAt q = some c)
          ∧ (q ∉ records.map Prod.fst →
            (loadRecords treeMaxDepth records t).colorAt q = t.colorAt q) := by
  intro records
  induction records with
  | nil =>
    intro t _ _ q
    exact ⟨fun c h => absurd h (List.not_mem_nil _), fun _ => rfl⟩
  | cons r rs ih =>
    intro t hlen hnodup q
    rw [List.map_cons, List.nodup_cons] at hnodup
    have hstep : loadRecords treeMaxDepth (r :: rs) t
        = loadRecords treeMaxDepth rs (t.insertAt false r.2 r.1) := by
      show loadRecords treeMaxDepth rs (t.insert treeMaxDepth false r.1 r.2) = _
      rw [insert_eq_insertAt _ _ _ _ _ (hlen r (List.mem_cons_self r rs))]
    have ih' := ih (t.insertAt false r.2 r.1)
      (fun x hx => hlen x (List.mem_cons_of_mem r hx)) hnodup.2 q
    rw [hstep]
    constructor
    · intro c hc
      rcases List.mem_cons.mp hc with h | h
      · have hq : q ∉ rs.map Prod.fst := by
          have : q = r.1 := by rw [← h]
          rw [this]
          exact hnodup.1
        rw [ih'.2 hq, colorAt_insertAt, ← h, if_pos rfl]
      · exact ih'.1 c h
    · intro hq
      rw [List.map_cons, List.mem_cons, not_or] at hq
      rw [ih'.2 hq.2, colorAt_insertAt, if_neg hq.1]

theorem lex_irrefl :
    ∀ p : List (Fin 8), ¬ List.Lex (fun i j : Fin 8 => i < j) p p := by
  intro p
  induction p with
  | nil => intro h; cases h
  | cons i rest ih =>
    intro h
    cases h with
    | cons h' => exact ih h'
    | rel h' => exact lt_irrefl i h'

theorem nodup_of_pairwise_lex (paths : List (List (Fin 8)))
    (h : paths.Pairwise (List.Lex (fun i j : Fin 8 => i < j))) : paths.Nodup :=
  h.imp (fun {a b} hab heq => by
    rw [heq] at hab
    exact lex_irrefl b hab)
theorem records_length_lt_of_fits :
    ∀ (levels n : Nat) (slot : Child), slot.fitsDepth n = true →
      ∀ r ∈ Child.records levels slot, r.1.length < n := by
  intro levels
  induction levels with
  | zero =>
    intro n slot _ r hr
    cases slot <;> simp [Child.records] at hr
  | succ l ih =>
    intro n slot hfit r hr
    cases slot with
    | empty => simp [Child.records] at hr
    | node color children =>
      cases n with
      | zero => simp [Child.fitsDepth] at hfit
      | succ m =>
        simp only [Child.fitsDepth, List.all_eq_true, List.mem_finRange, true_implies] at hfit
        rw [records_succ_node, List.mem_append] at hr
        rcases hr with h | h
        · cases color with
          | none => simp at h
          | some c =>
            simp only [List.mem_singleton] at h
            rw [h]
            exact Nat.succ_pos m
        · obtain ⟨i, _, hi⟩ := List.mem_flatMap.mp h
          obtain ⟨r', hr', hrr⟩ := List.mem_map.mp hi
          rw [← hrr]
          exact Nat.succ_lt_succ (ih m _ (hfit i) r' hr')

theorem processPacket_wholeCode_two_records :
    readCalls (processPacket wholeCodeEnv 0 7 [83, 0, 0, 0, 255, 0, 0, 0, 0, 255, 0] 11).2
      = [(3, false), (7, false)] := by
  simp [processPacket, wholeCodeEnv, sampleEnv, sampleTypes, setVoxelLoop, markLastHeard,
    voxelDataSize, COLOR_SIZE_IN_BYTES, readCalls]

theorem decodeStream_root_record (a b c : Nat) (rest : List Nat) :
    decodeStream (0 :: a :: b :: c :: rest)
      = (([], { red := Fin.ofNat a, green := Fin.ofNat b, blue := Fin.ofNat c })
          :: (decodeStream rest).1, (decodeStream rest).2) := by
  rw [decodeStream]
  simp [bytesRequiredForCodeLength, decodeRecord, unpackSegments]

theorem decodeStream_zeros (k : Nat) (rest : List Nat) :
    decodeStream (List.replicate (4 * k) 0 ++ rest)
      = (List.replicate k ([], { red := 0, green := 0, blue := 0 }) ++ (decodeStream rest).1,
          (decodeStream rest).2) := by
  induction k with
  | zero => rfl
  | succ k ih =>
    have h : List.replicate (4 * (k + 1)) 0 ++ rest
        = 0 :: 0 :: 0 :: 0 :: (List.replicate (4 * k) 0 ++ rest) := by
      rw [show 4 * (k + 1) = 4 * k + 1 + 1 + 1 + 1 from by ring]
      rfl
    rw [h, decodeStream_root_record, ih]
    rfl

end VoxelServer
